import Mathlib

/-!
# HomeAssistant hub: shallow embedding of `homeassistant.cpp`

The development follows the C++ class `HomeAssistant`:

* the Qt JSON value model (`QJsonValue`, `QJsonObject`) with the operations the
  class calls (`value`, `insert`, `toString`, `toBool`, `toObject`, `toArray`,
  the compact writer);
* the flattener `makeHaFlat`;
* the object state (`HomeAssistant`) and its member functions, written as state
  transformers that also return the list of externally visible effects (signals
  emitted, calls made on sockets and on the mDNS provider, diagnostics).

Conventions: `QString` and `QByteArray` are both `String` (the byte arrays of the
class are UTF-8 text, `toUtf8` is the identity on it); JSON numbers carry an `Int`
(the class never computes with a number, it copies them and creates list sizes);
the monotonic clock is an `Int` count of milliseconds passed to each call.
-/

/-! ## Key order -/

/-- Lexicographic "less than" on character sequences, by character code. -/
def ltChars : List Char → List Char → Bool
  | [], [] => false
  | [], _ :: _ => true
  | _ :: _, [] => false
  | a :: as, b :: bs =>
    if a.toNat < b.toNat then true
    else if a.toNat = b.toNat then ltChars as bs
    else false

/-- The order in which Qt keeps the keys of a `QJsonObject` and of a `QMap` with
byte-array keys: `operator<` of the key type. -/
def keyLt (a b : String) : Bool := ltChars a.data b.data

/-! ## JSON values -/

/-- The value type of Qt JSON: one constructor per `QJsonValue::Type`. -/
inductive QJsonValue where
  | null
  | bool (b : Bool)
  | double (n : Int)
  | string (s : String)
  | array (xs : List QJsonValue)
  | object (kvs : List (String × QJsonValue))
  | undefined
  deriving Repr

/-- A JSON object: its members in key order, as `QJsonObject` stores them. -/
abbrev QJsonObject := List (String × QJsonValue)

/-- A JSON array. -/
abbrev QJsonArray := List QJsonValue

namespace QJsonValue

mutual
/-- Structural equality test of two values (`QJsonValue::operator==`). -/
def beq : QJsonValue → QJsonValue → Bool
  | null, null => true
  | bool a, bool b => a == b
  | double a, double b => a == b
  | string a, string b => a == b
  | array a, array b => beqList a b
  | object a, object b => beqMembers a b
  | undefined, undefined => true
  | _, _ => false
/-- Structural equality test of two arrays. -/
def beqList : List QJsonValue → List QJsonValue → Bool
  | [], [] => true
  | x :: xs, y :: ys => beq x y && beqList xs ys
  | _, _ => false
/-- Structural equality test of two member lists. -/
def beqMembers : List (String × QJsonValue) → List (String × QJsonValue) → Bool
  | [], [] => true
  | (k, x) :: xs, (l, y) :: ys => k == l && beq x y && beqMembers xs ys
  | _, _ => false
end

mutual
theorem beq_iff : ∀ (a b : QJsonValue), beq a b = true ↔ a = b
  | null, b => by cases b <;> simp [beq]
  | bool a, b => by cases b <;> simp [beq]
  | double a, b => by cases b <;> simp [beq]
  | string a, b => by cases b <;> simp [beq]
  | array a, b => by cases b <;> simp [beq, beqList_iff a]
  | object a, b => by cases b <;> simp [beq, beqMembers_iff a]
  | undefined, b => by cases b <;> simp [beq]
theorem beqList_iff : ∀ (a b : List QJsonValue), beqList a b = true ↔ a = b
  | [], b => by cases b <;> simp [beqList]
  | x :: xs, b => by cases b <;> simp [beqList, beq_iff x, beqList_iff xs]
theorem beqMembers_iff :
    ∀ (a b : List (String × QJsonValue)), beqMembers a b = true ↔ a = b
  | [], b => by cases b <;> simp [beqMembers]
  | (k, x) :: xs, b => by
    cases b with
    | nil => simp [beqMembers]
    | cons p ys =>
      obtain ⟨l, y⟩ := p
      simp [beqMembers, beq_iff x, beqMembers_iff xs, and_assoc]
end

instance : DecidableEq QJsonValue :=
  fun a b => decidable_of_iff (beq a b = true) (beq_iff a b)

/-- `QJsonValue::isNull`. -/
def isNull : QJsonValue → Bool
  | null => true
  | _ => false

/-- `QJsonValue::isUndefined`. -/
def isUndefined : QJsonValue → Bool
  | undefined => true
  | _ => false

/-- `QJsonValue::isObject`. -/
def isObject : QJsonValue → Bool
  | object _ => true
  | _ => false

/-- `QJsonValue::isArray`. -/
def isArray : QJsonValue → Bool
  | array _ => true
  | _ => false

/-- `QJsonValue::toString(defaultValue)`: the string held, else the default. -/
def toString (v : QJsonValue) (defaultValue : String) : String :=
  match v with
  | string s => s
  | _ => defaultValue

/-- `QJsonValue::toBool()`: the boolean held, else `false`. -/
def toBool : QJsonValue → Bool
  | bool b => b
  | _ => false

/-- `QJsonValue::toObject()`: the object held, else the empty object. -/
def toObject : QJsonValue → QJsonObject
  | object kvs => kvs
  | _ => []

/-- `QJsonValue::toArray()`: the array held, else the empty array. -/
def toArray : QJsonValue → QJsonArray
  | array xs => xs
  | _ => []

end QJsonValue

namespace QJsonObject

/-- `QJsonObject::value(key)`: the member stored under `key`, `Undefined` when
there is none. -/
def value : QJsonObject → String → QJsonValue
  | [], _ => .undefined
  | (k, v) :: rest, key => if k = key then v else value rest key

/-- `QJsonObject::contains(key)`. -/
def contains : QJsonObject → String → Bool
  | [], _ => false
  | (k, _) :: rest, key => if k = key then true else contains rest key

/-- `QJsonObject::remove(key)`. -/
def remove : QJsonObject → String → QJsonObject
  | [], _ => []
  | (k, v) :: rest, key => if k = key then rest else (k, v) :: remove rest key

/-- Store `v` under `key` at its place in key order, replacing a member that has
the same key. -/
def insertSorted : QJsonObject → String → QJsonValue → QJsonObject
  | [], key, v => [(key, v)]
  | (k, w) :: rest, key, v =>
    if keyLt key k then (key, v) :: (k, w) :: rest
    else if key = k then (key, v) :: rest
    else (k, w) :: insertSorted rest key v

/-- `QJsonObject::insert(key, value)`: an `Undefined` value removes the key, any
other value is stored under it, replacing the previous member. -/
def insert (o : QJsonObject) (key : String) (v : QJsonValue) : QJsonObject :=
  if v.isUndefined then remove o key else insertSorted o key v

/-- `QJsonObject::isEmpty`. -/
def isEmpty (o : QJsonObject) : Bool := List.isEmpty o

/-- The keys of an object, in order. -/
def keys (o : QJsonObject) : List String := List.map Prod.fst o

/-- An object as Qt holds it: keys strictly increasing (so pairwise distinct). -/
def WF (o : QJsonObject) : Prop := List.Pairwise (fun a b => keyLt a b = true) (keys o)

instance (o : QJsonObject) : Decidable (WF o) := by
  unfold WF; infer_instance

end QJsonObject

/-! ## The compact JSON writer (`QJsonDocument::toJson(QJsonDocument::Compact)`) -/

namespace QJsonDocument

/-- One hexadecimal digit. -/
def hexDigit (n : Nat) : Char :=
  if n < 10 then Char.ofNat (48 + n) else Char.ofNat (87 + n)

/-- The text of one character inside a JSON string literal. -/
def escapedChar (c : Char) : List Char :=
  if c = '"' then ['\\', '"']
  else if c = '\\' then ['\\', '\\']
  else if c.toNat = 8 then ['\\', 'b']
  else if c.toNat = 12 then ['\\', 'f']
  else if c.toNat = 10 then ['\\', 'n']
  else if c.toNat = 13 then ['\\', 'r']
  else if c.toNat = 9 then ['\\', 't']
  else if c.toNat < 32 then
    ['\\', 'u', '0', '0', hexDigit (c.toNat / 16), hexDigit (c.toNat % 16)]
  else [c]

/-- A quoted JSON string literal. -/
def quoted (s : String) : String :=
  "\"" ++ String.mk (s.data.flatMap escapedChar) ++ "\""

mutual
/-- Compact text of a value. -/
def valueToJson : QJsonValue → String
  | .null => "null"
  | .undefined => "null"
  | .bool true => "true"
  | .bool false => "false"
  | .double n => if n < 0 then "-" ++ Nat.repr n.natAbs else Nat.repr n.natAbs
  | .string s => quoted s
  | .array xs => "[" ++ arrayContentToJson xs ++ "]"
  | .object kvs => "\x7b" ++ objectContentToJson kvs ++ "\x7d"
/-- Compact text of the elements of an array, comma separated. -/
def arrayContentToJson : List QJsonValue → String
  | [] => ""
  | [x] => valueToJson x
  | x :: y :: rest => valueToJson x ++ "," ++ arrayContentToJson (y :: rest)
/-- Compact text of the members of an object, comma separated. -/
def objectContentToJson : List (String × QJsonValue) → String
  | [] => ""
  | [(k, x)] => quoted k ++ ":" ++ valueToJson x
  | (k, x) :: p :: rest =>
    quoted k ++ ":" ++ valueToJson x ++ "," ++ objectContentToJson (p :: rest)
end

/-- `QJsonDocument(obj).toJson(QJsonDocument::Compact)` as a `QString`. -/
def toJson (obj : QJsonObject) : String := valueToJson (.object obj)

/-- `QJsonDocument(arr).toJson(QJsonDocument::Compact)` as a `QString`. -/
def arrayToJson (arr : QJsonArray) : String := valueToJson (.array arr)

end QJsonDocument

/-! ## The flattener -/

namespace HomeAssistant

/-- The `put` lambda of `makeHaFlat`: an undefined or null value is stored as the
empty string, any other value as it is. -/
def put (flat : QJsonObject) (k : String) (v : QJsonValue) : QJsonObject :=
  if v.isUndefined || v.isNull then flat.insert k (.string "")
  else flat.insert k v

/-- The loop `for (it = o.begin(); it != o.end(); ++it) put(pre + it.key(), it.value())`:
the key is the text `pre` with the member key substituted for its last place marker. -/
def putMembers (flat : QJsonObject) (pre : String) (o : QJsonObject) : QJsonObject :=
  List.foldl (fun acc kv => put acc (pre ++ kv.1) kv.2) flat o

/-- The key text `QString("<ns>_%1_%2").arg(i)` up to and including the second
underscore: `<ns>_<i>_`. -/
def indexedKey (ns : String) (i : Nat) : String := ns ++ "_" ++ Nat.repr i ++ "_"

/-- The loop over a list of objects, from position `i` on:
`for (; i < xs.size(); ++i) { o = xs.at(i).toObject(); for each member put("<ns>_<i>_<key>", value) }`. -/
def putObjectList (ns : String) : QJsonObject → Nat → QJsonArray → QJsonObject
  | flat, _, [] => flat
  | flat, i, x :: rest =>
    putObjectList ns (putMembers flat (indexedKey ns i) x.toObject) (i + 1) rest

/-- The loop over `additionalStatusFields`, from position `i` on: an object element
gives one field per member, an array element one field holding its compact JSON text,
any other element is put as it is. -/
def putAdditional : QJsonObject → Nat → QJsonArray → QJsonObject
  | flat, _, [] => flat
  | flat, i, v :: rest =>
    if v.isObject then
      putAdditional (putMembers flat (indexedKey "additional" i) v.toObject) (i + 1) rest
    else if v.isArray then
      putAdditional
        (put flat ("additional_" ++ Nat.repr i)
          (.string (QJsonDocument.arrayToJson v.toArray))) (i + 1) rest
    else
      putAdditional (put flat ("additional_" ++ Nat.repr i) v) (i + 1) rest

/-- The block of `makeHaFlat` that writes the five fixed `notification_*` keys from
the first notification, or as empty strings. -/
def putFirstNotification (flat : QJsonObject) (notifs : QJsonArray) : QJsonObject :=
  if !notifs.isEmpty && (notifs.headD .undefined).isObject then
    let n0 := (notifs.headD .undefined).toObject
    let flat := put flat "notification_category" (n0.value "category")
    let flat := put flat "notification_description" (n0.value "description")
    let flat := put flat "notification_errorNumber" (n0.value "errorNumber")
    let flat := put flat "notification_id" (n0.value "id")
    put flat "notification_text" (n0.value "text")
  else
    let flat := put flat "notification_category" (.string "")
    let flat := put flat "notification_description" (.string "")
    let flat := put flat "notification_errorNumber" (.string "")
    let flat := put flat "notification_id" (.string "")
    put flat "notification_text" (.string "")

/-- `HomeAssistant::makeHaFlat`: build the flat schema from a nested status. -/
def makeHaFlat (status : QJsonObject) : QJsonObject :=
  let flat : QJsonObject := []
  -- Basics
  let flat := put flat "device_id"
    (.string ((status.value "deviceId").toString ((status.value "id").toString "")))
  let flat := put flat "id" (.string ((status.value "id").toString ""))
  let flat := put flat "is_online" (.bool (status.value "isOnline").toBool)
  let flat := put flat "is_in_use" (.bool (status.value "isInUse").toBool)
  let flat := put flat "has_info" (status.value "hasInfo")
  -- Hygiene
  let hs := (status.value "hygieneState").toObject
  let flat := putMembers flat "hygiene_" hs
  -- Notifications
  let notifs := (status.value "notifications").toArray
  let flat := put flat "notifications_count" (.double notifs.length)
  let flat := putFirstNotification flat notifs
  let flat := putObjectList "notifications" flat 0 notifs
  -- Critical errors
  let crit := (status.value "criticalErrors").toArray
  let flat := put flat "critical_errors_count" (.double crit.length)
  let flat := putObjectList "critical" flat 0 crit
  -- Other notifications
  let other := (status.value "otherNotifications").toArray
  let flat := put flat "other_notifications_count" (.double other.length)
  let flat := putObjectList "other_notifications" flat 0 other
  -- Additional status
  let add := (status.value "additionalStatusFields").toArray
  let flat := put flat "additional_status_fields_count" (.double add.length)
  putAdditional flat 0 add

end HomeAssistant

/-! ## The object state -/

/-- A byte array of the class (UTF-8 text). -/
abbrev QByteArray := String

/-- `QMap<QByteArray, QByteArray>`: entries in key order. -/
abbrev QMap := List (QByteArray × QByteArray)

namespace QMap

/-- `QMap::insert(key, value)`: stored at its place in key order, replacing an entry
with the same key. -/
def insert : QMap → QByteArray → QByteArray → QMap
  | [], key, v => [(key, v)]
  | (k, w) :: rest, key, v =>
    if keyLt key k then (key, v) :: (k, w) :: rest
    else if key = k then (key, v) :: rest
    else (k, w) :: insert rest key v

/-- A map as Qt holds it: keys strictly increasing. -/
def WF (m : QMap) : Prop :=
  List.Pairwise (fun a b => keyLt a b = true) (List.map Prod.fst m)

instance (m : QMap) : Decidable (WF m) := by
  unfold WF; infer_instance

end QMap

namespace QMdnsEngine

/-- `QMdnsEngine::Service`: one service record. -/
structure Service where
  type : QByteArray
  name : QByteArray
  port : Nat
  attributes : QMap
  deriving DecidableEq, Repr

namespace Service

/-- `new QMdnsEngine::Service`: a record with nothing set. -/
def new : Service := { type := "", name := "", port := 0, attributes := [] }

/-- `Service::setType`. -/
def setType (s : Service) (t : QByteArray) : Service := { s with type := t }

/-- `Service::setName`. -/
def setName (s : Service) (n : QByteArray) : Service := { s with name := n }

/-- `Service::setPort`. -/
def setPort (s : Service) (p : Nat) : Service := { s with port := p }

/-- `Service::addAttribute(key, value)`. -/
def addAttribute (s : Service) (k v : QByteArray) : Service :=
  { s with attributes := s.attributes.insert k v }

end Service

end QMdnsEngine

/-- A client socket, named by its address (`QWebSocket*`). -/
abbrev QWebSocket := Nat

/-- A thread, named by its address (`QThread*`). -/
abbrev QThread := Nat

/-- `QWebSocketServer`, as far as the class looks at it. -/
structure QWebSocketServer where
  listening : Bool
  deriving DecidableEq, Repr

/-- Severity of a diagnostic (`qDebug`, `qInfo`, `qWarning`). -/
inductive LogLevel where
  | debug
  | info
  | warning
  deriving DecidableEq, Repr

/-- What a member function does to the outside: calls on the mDNS provider, on the
sockets and on the listener, signals emitted, diagnostics (the fixed leading text of
the message; the streamed operands are left out). -/
inductive Effect where
  | providerUpdate (svc : QMdnsEngine.Service)
  | serverListen (port : Nat)
  | serverClose
  | socketDisconnectSignals (sock : QWebSocket)
  | socketClose (sock : QWebSocket)
  | socketDeleteLater (sock : QWebSocket)
  | keepaliveStart (sock : QWebSocket) (intervalMs : Nat)
  | sendTextMessage (sock : QWebSocket) (text : String)
  | clientCountChanged (count : Nat)
  | messageReceived (message : String)
  | log (level : LogLevel) (text : String)
  deriving DecidableEq, Repr

/-- A call posted to the owning thread with `Qt::QueuedConnection`. -/
inductive QueuedCall where
  | broadcastText (copy : String)
  | broadcastHaFlat (copy : QJsonObject) (force : Bool)
  deriving DecidableEq, Repr

/-- The data members of `class HomeAssistant`. The three scoped pointers of the mDNS
stack are recorded as "is set"; `m_lastSend` is `none` while the elapsed timer is
invalid and `some t` when it was last started at clock reading `t`; `thread` is the
thread the object lives in and `queued` the calls posted to it and not yet run. -/
structure HomeAssistant where
  mdns_server : Bool
  mdns_hostname : Bool
  mdns_provider : Bool
  mdns_service : Option QMdnsEngine.Service
  mdns_serviceType : QByteArray
  mdns_instanceName : QByteArray
  mdns_port : Nat
  mdns_txt : QMap
  w_server : Option QWebSocketServer
  w_clients : List QWebSocket
  w_listenport : Nat
  m_lastFlat : QJsonObject
  m_lastSend : Option Int
  thread : QThread
  queued : List QueuedCall
  deriving DecidableEq, Repr

/-- `QSet::insert`: nothing changes when the element is already in the set. -/
def QSet.insert (s : List QWebSocket) (x : QWebSocket) : List QWebSocket :=
  if x ∈ s then s else s ++ [x]

/-- `QSet::remove`. -/
def QSet.remove (s : List QWebSocket) (x : QWebSocket) : List QWebSocket :=
  List.filter (fun y => y != x) s

namespace HomeAssistant

/-- The constructor: the mDNS core stack is created, everything else is at its
default (no record, nothing cached, no listener, no client, empty snapshot, invalid
timer). -/
def new (thread : QThread) : HomeAssistant :=
  { mdns_server := true, mdns_hostname := true, mdns_provider := true,
    mdns_service := none, mdns_serviceType := "", mdns_instanceName := "",
    mdns_port := 0, mdns_txt := [], w_server := none, w_clients := [],
    w_listenport := 0, m_lastFlat := [], m_lastSend := none, thread := thread,
    queued := [] }

/-! ### mDNS -/

/-- The record built from the cached parameters: `setType`, `setName`, `setPort`,
then one `addAttribute` per entry of the cached TXT map. -/
def buildService (h : HomeAssistant) : QMdnsEngine.Service :=
  let s := QMdnsEngine.Service.new
  let s := s.setType h.mdns_serviceType
  let s := s.setName h.mdns_instanceName
  let s := s.setPort h.mdns_port
  List.foldl (fun acc kv => acc.addAttribute kv.1 kv.2) s h.mdns_txt

/-- `HomeAssistant::start_mdns`. -/
def start_mdns (h : HomeAssistant) (serviceType instanceName : String) (port : Nat)
    (txt : QMap) : HomeAssistant × List Effect :=
  -- make sure the mdns plumbing exists
  let h := if !h.mdns_server then { h with mdns_server := true } else h
  let h := if !h.mdns_hostname then { h with mdns_hostname := true } else h
  let h := if !h.mdns_provider then { h with mdns_provider := true } else h
  -- cache params for republish
  let h := { h with mdns_serviceType := serviceType, mdns_instanceName := instanceName,
                    mdns_port := port, mdns_txt := txt }
  -- build and publish service record
  let svc := buildService h
  ({ h with mdns_service := some svc },
   [.providerUpdate svc, .log .info "[MdnsService] Published"])

/-- `HomeAssistant::stop_mdns`. -/
def stop_mdns (h : HomeAssistant) : HomeAssistant × List Effect :=
  let e1 : List Effect :=
    if h.mdns_provider && h.mdns_service.isSome then [.log .info "[MdnsService] Unpublished"]
    else []
  ({ h with mdns_service := none, mdns_port := 0, mdns_serviceType := "",
            mdns_instanceName := "", mdns_txt := [] },
   e1 ++ [.log .info "[MdnsService] stopped"])

/-- `HomeAssistant::republish_mdns`. -/
def republish_mdns (h : HomeAssistant) : HomeAssistant × List Effect :=
  match h.mdns_provider, h.mdns_service with
  | true, some svc =>
    (h, [.providerUpdate svc, .log .info "[MdnsService] Re-announced"])
  | _, _ =>
    if h.mdns_serviceType.isEmpty || h.mdns_instanceName.isEmpty || h.mdns_port == 0 then
      (h, [.log .warning "[MdnsService] republish() skipped; no cached parameters."])
    else
      -- rebuild service object from cached params
      let svc := buildService h
      let h := { h with mdns_service := some svc }
      let h :=
        if !h.mdns_provider then
          let h := if !h.mdns_server then { h with mdns_server := true } else h
          let h := if !h.mdns_hostname then { h with mdns_hostname := true } else h
          { h with mdns_provider := true }
        else h
      (h, [.providerUpdate svc, .log .info "[MdnsService] Rebuilt and announced"])

/-- The lifecycle state of the advertiser: `Published` when a current record exists. -/
def published (h : HomeAssistant) : Bool := h.mdns_service.isSome

end HomeAssistant

namespace HomeAssistant

/-! ### WebSocket -/

/-- `HomeAssistant::clientCount`. -/
def clientCount (h : HomeAssistant) : Nat := h.w_clients.length

/-- `HomeAssistant::isListening`. -/
def isListening (h : HomeAssistant) : Bool :=
  match h.w_server with
  | some s => s.listening
  | none => false

/-- `HomeAssistant::listeningPort`. -/
def listeningPort (h : HomeAssistant) : Nat := h.w_listenport

/-- `HomeAssistant::start_webSocketServer`; `listenOk` is what `QWebSocketServer::listen`
answers. The result carries the returned boolean. -/
def start_webSocketServer (h : HomeAssistant) (port : Nat) (listenOk : Bool) :
    HomeAssistant × List Effect × Bool :=
  if h.isListening then
    (h, [.log .info "[WebSocketService] already listening on port"], true)
  else if !listenOk then
    ({ h with w_server := none, w_listenport := 0 },
     [.serverListen port, .log .warning "[WebSocketService] listen failed on port"], false)
  else
    ({ h with w_server := some { listening := true }, w_listenport := port },
     [.serverListen port, .log .info "[WebSocketService] listening on"], true)

/-- `HomeAssistant::stop_webSocketServer`. -/
def stop_webSocketServer (h : HomeAssistant) : HomeAssistant × List Effect :=
  -- close and delete client sockets
  let e1 : List Effect := h.w_clients.flatMap fun sock =>
    [.socketDisconnectSignals sock, .socketClose sock, .socketDeleteLater sock]
  let prevCount := h.w_clients.length
  let e2 : List Effect := if prevCount != 0 then [.clientCountChanged 0] else []
  let e3 : List Effect :=
    match h.w_server with
    | some s => if s.listening then [.serverClose] else []
    | none => []
  ({ h with w_clients := [], w_server := none, w_listenport := 0 },
   e1 ++ e2 ++ e3 ++ [.log .info "[WebSocketService] stopped"])

/-- `HomeAssistant::onNewConnection`; `pending` is what
`QWebSocketServer::nextPendingConnection` answers. -/
def onNewConnection (h : HomeAssistant) (pending : Option QWebSocket) :
    HomeAssistant × List Effect :=
  match h.w_server, pending with
  | none, _ => (h, [])
  | some _, none => (h, [])
  | some _, some socket =>
    let h := { h with w_clients := QSet.insert h.w_clients socket }
    (h, [.keepaliveStart socket 15000, .clientCountChanged h.w_clients.length,
         .log .info "[WebSocketService] client connected from"])

/-- `HomeAssistant::onTextMessageReceived`. -/
def onTextMessageReceived (h : HomeAssistant) (message : String) :
    HomeAssistant × List Effect :=
  (h, [.messageReceived message])

/-- `HomeAssistant::onSocketDisconnected`; `sender` is what
`qobject_cast<QWebSocket*>(sender())` answers. -/
def onSocketDisconnected (h : HomeAssistant) (sender : Option QWebSocket) :
    HomeAssistant × List Effect :=
  match sender with
  | none => (h, [])
  | some socket =>
    let h := { h with w_clients := QSet.remove h.w_clients socket }
    (h, [.log .info "[WebSocketService] client disconnected;", .socketDeleteLater socket,
         .clientCountChanged h.w_clients.length])

/-! ### Broadcast helpers -/

/-- `HomeAssistant::broadcastText`, called from thread `currentThread`. -/
def broadcastText (h : HomeAssistant) (currentThread : QThread) (text : String) :
    HomeAssistant × List Effect :=
  if currentThread ≠ h.thread then
    ({ h with queued := h.queued ++ [.broadcastText text] }, [])
  else
    (h, h.w_clients.flatMap fun s =>
      [.sendTextMessage s text, .log .debug "Text sent to home assistant"])

/-- `HomeAssistant::broadcastJson`. -/
def broadcastJson (h : HomeAssistant) (currentThread : QThread) (obj : QJsonObject) :
    HomeAssistant × List Effect :=
  let payload := QJsonDocument.toJson obj
  broadcastText h currentThread payload

/-- `QElapsedTimer::elapsed` at clock reading `now`, for a timer started at `t0`. -/
def elapsed (now t0 : Int) : Int := now - t0

/-- `HomeAssistant::broadcastHaFlat`, called from thread `currentThread` when the
monotonic clock reads `now` (milliseconds). -/
def broadcastHaFlat (h : HomeAssistant) (currentThread : QThread) (now : Int)
    (jsonobj : QJsonObject) (force : Bool) : HomeAssistant × List Effect :=
  if currentThread ≠ h.thread then
    ({ h with queued := h.queued ++ [.broadcastHaFlat jsonobj force] }, [])
  else
    let flat := makeHaFlat jsonobj
    let proceed : HomeAssistant × List Effect :=
      -- start or restart the timer
      let h := { h with m_lastSend := some now }
      let (h, e) := broadcastJson h currentThread flat
      ({ h with m_lastFlat := flat }, e ++ [.log .debug "[HomeAssistant] flat broadcast:"])
    if !force then
      if !h.m_lastFlat.isEmpty && decide (flat = h.m_lastFlat) then (h, [])
      else if (match h.m_lastSend with
               | some t0 => decide (elapsed now t0 < 150)
               | none => false) then (h, [])
      else proceed
    else proceed

/-! ### Reading an effect list -/

/-- The text frame an effect sends, with the socket it goes to. -/
def Effect.frame? : Effect → Option (QWebSocket × String)
  | .sendTextMessage s t => some (s, t)
  | _ => none

/-- The value an effect signals through `clientCountChanged`. -/
def Effect.countSignal? : Effect → Option Nat
  | .clientCountChanged n => some n
  | _ => none

/-- The record an effect hands to the `update` of the mDNS provider. -/
def Effect.providerUpdate? : Effect → Option QMdnsEngine.Service
  | .providerUpdate s => some s
  | _ => none

/-- The text frames sent, with the socket each went to, in order. -/
def frames (es : List Effect) : List (QWebSocket × String) := es.filterMap Effect.frame?

/-- How many flat broadcasts were made (one "flat broadcast" diagnostic closes each
call of `broadcastHaFlat` that went through the gate). -/
def broadcasts (es : List Effect) : Nat :=
  es.countP fun e => decide (e = .log .debug "[HomeAssistant] flat broadcast:")

/-- The values of the `clientCountChanged` signals emitted, in order. -/
def countSignals (es : List Effect) : List Nat := es.filterMap Effect.countSignal?

/-- The `update` calls made on the mDNS provider, in order. -/
def providerUpdates (es : List Effect) : List QMdnsEngine.Service :=
  es.filterMap Effect.providerUpdate?

end HomeAssistant

/-! ## Proof devices

Definitions used only to state and prove properties of the code above. -/

namespace HomeAssistant

/-- What `put` stores for a value: the empty string for undefined and null. -/
def stored (v : QJsonValue) : QJsonValue :=
  if v.isUndefined || v.isNull then .string "" else v

/-- The two tests of the gate of `broadcastHaFlat`, taken together: the new flat
document equals a non-empty last snapshot, or the timer is valid and reads less than
150 ms. -/
def gateCloses (h : HomeAssistant) (now : Int) (flat : QJsonObject) : Bool :=
  (!h.m_lastFlat.isEmpty && decide (flat = h.m_lastFlat)) ||
  (match h.m_lastSend with
   | some t0 => decide (elapsed now t0 < 150)
   | none => false)

/-- The effects of one flat broadcast that goes through: the payload to every
registered socket, then the closing diagnostic. -/
def sendEffects (h : HomeAssistant) (flat : QJsonObject) : List Effect :=
  (h.w_clients.flatMap fun s =>
    [Effect.sendTextMessage s (QJsonDocument.toJson flat),
     Effect.log .debug "Text sent to home assistant"]) ++
  [Effect.log .debug "[HomeAssistant] flat broadcast:"]

end HomeAssistant

namespace HomeAssistant

/-- What happens to the registry: the listener hands over a new socket, or a registered
socket reports that it was disconnected. -/
inductive ConnEvent where
  | accept (s : QWebSocket)
  | disconnect (s : QWebSocket)
  deriving DecidableEq, Repr

/-- The slot that runs for an event. -/
def step (h : HomeAssistant) : ConnEvent → HomeAssistant × List Effect
  | .accept s => onNewConnection h (some s)
  | .disconnect s => onSocketDisconnected h (some s)

/-- The slots run for a sequence of events, one after the other; the effects are
collected in order. -/
def run (h : HomeAssistant) : List ConnEvent → HomeAssistant × List Effect
  | [] => (h, [])
  | e :: rest => ((run (step h e).1 rest).1, (step h e).2 ++ (run (step h e).1 rest).2)

/-- The sockets accepted in a sequence of events, in order. -/
def accepted : List ConnEvent → List QWebSocket
  | [] => []
  | .accept s :: rest => s :: accepted rest
  | .disconnect _ :: rest => accepted rest

/-- The number of disconnects in a sequence of events. -/
def disconnects : List ConnEvent → Nat
  | [] => 0
  | .accept _ :: rest => disconnects rest
  | .disconnect _ :: rest => disconnects rest + 1

/-- Every disconnect of the sequence is of a socket that is in the registry when it
happens. -/
def DisconnectsRegistered (h : HomeAssistant) : List ConnEvent → Prop
  | [] => True
  | .accept s :: rest => DisconnectsRegistered (step h (.accept s)).1 rest
  | .disconnect s :: rest =>
    s ∈ h.w_clients ∧ DisconnectsRegistered (step h (.disconnect s)).1 rest

/-- The test of `DisconnectsRegistered`. -/
def decDisconnectsRegistered :
    (tr : List ConnEvent) → (h : HomeAssistant) → Decidable (DisconnectsRegistered h tr)
  | [], _ => isTrue trivial
  | .accept s :: rest, h => decDisconnectsRegistered rest (step h (.accept s)).1
  | .disconnect s :: rest, h =>
    match decDisconnectsRegistered rest (step h (.disconnect s)).1 with
    | isTrue hr =>
      if hm : s ∈ h.w_clients then isTrue ⟨hm, hr⟩ else isFalse (fun hc => hm hc.1)
    | isFalse hr => isFalse (fun hc => hr hc.2)

instance (h : HomeAssistant) (tr : List ConnEvent) : Decidable (DisconnectsRegistered h tr) :=
  decDisconnectsRegistered tr h

end HomeAssistant

/-! ### The sequence of `put` calls of `makeHaFlat`, and the shape of its keys -/

namespace HomeAssistant

/-- The `put` calls of the member loop: one per member, key `pre ++ key`. -/
def memberWrites (pre : String) (o : QJsonObject) : List (String × QJsonValue) :=
  o.map fun kv => (pre ++ kv.1, kv.2)

/-- The `put` calls of the loop over a list of objects, from position `i` on. -/
def objectListWrites (ns : String) : Nat → QJsonArray → List (String × QJsonValue)
  | _, [] => []
  | i, x :: rest =>
    memberWrites (indexedKey ns i) x.toObject ++ objectListWrites ns (i + 1) rest

/-- The `put` calls made for the element at position `i` of `additionalStatusFields`. -/
def additionalElementWrites (i : Nat) (v : QJsonValue) : List (String × QJsonValue) :=
  if v.isObject then memberWrites (indexedKey "additional" i) v.toObject
  else if v.isArray then
    [("additional_" ++ Nat.repr i, .string (QJsonDocument.arrayToJson v.toArray))]
  else [("additional_" ++ Nat.repr i, v)]

/-- The `put` calls of the loop over `additionalStatusFields`, from position `i` on. -/
def additionalWrites : Nat → QJsonArray → List (String × QJsonValue)
  | _, [] => []
  | i, v :: rest => additionalElementWrites i v ++ additionalWrites (i + 1) rest

/-- The five `put` calls of the first-notification block. -/
def firstNotificationWrites (notifs : QJsonArray) : List (String × QJsonValue) :=
  if !notifs.isEmpty && (notifs.headD .undefined).isObject then
    let n0 := (notifs.headD .undefined).toObject
    [("notification_category", n0.value "category"),
     ("notification_description", n0.value "description"),
     ("notification_errorNumber", n0.value "errorNumber"),
     ("notification_id", n0.value "id"),
     ("notification_text", n0.value "text")]
  else
    [("notification_category", .string ""), ("notification_description", .string ""),
     ("notification_errorNumber", .string ""), ("notification_id", .string ""),
     ("notification_text", .string "")]

/-- All `put` calls of `makeHaFlat`, in the order they are made: key and value handed
to `put`. -/
def writes (status : QJsonObject) : List (String × QJsonValue) :=
  [("device_id",
      .string ((status.value "deviceId").toString ((status.value "id").toString ""))),
   ("id", .string ((status.value "id").toString "")),
   ("is_online", .bool (status.value "isOnline").toBool),
   ("is_in_use", .bool (status.value "isInUse").toBool),
   ("has_info", status.value "hasInfo")] ++
  memberWrites "hygiene_" (status.value "hygieneState").toObject ++
  [("notifications_count", .double (status.value "notifications").toArray.length)] ++
  firstNotificationWrites (status.value "notifications").toArray ++
  objectListWrites "notifications" 0 (status.value "notifications").toArray ++
  [("critical_errors_count", .double (status.value "criticalErrors").toArray.length)] ++
  objectListWrites "critical" 0 (status.value "criticalErrors").toArray ++
  [("other_notifications_count",
      .double (status.value "otherNotifications").toArray.length)] ++
  objectListWrites "other_notifications" 0 (status.value "otherNotifications").toArray ++
  [("additional_status_fields_count",
      .double (status.value "additionalStatusFields").toArray.length)] ++
  additionalWrites 0 (status.value "additionalStatusFields").toArray

/-- The objects `makeHaFlat` iterates over are objects as Qt holds them (keys strictly
increasing): `hygieneState` and the elements of the four lists. -/
def ObjectsWF (status : QJsonObject) : Prop :=
  QJsonObject.WF (status.value "hygieneState").toObject ∧
  (∀ x ∈ (status.value "notifications").toArray, QJsonObject.WF x.toObject) ∧
  (∀ x ∈ (status.value "criticalErrors").toArray, QJsonObject.WF x.toObject) ∧
  (∀ x ∈ (status.value "otherNotifications").toArray, QJsonObject.WF x.toObject) ∧
  (∀ x ∈ (status.value "additionalStatusFields").toArray, QJsonObject.WF x.toObject)

instance (status : QJsonObject) : Decidable (ObjectsWF status) := by
  unfold ObjectsWF; infer_instance

/-- The fourteen keys `makeHaFlat` always writes. -/
def fixedKeys : List String :=
  ["device_id", "id", "is_online", "is_in_use", "has_info", "notifications_count",
   "notification_category", "notification_description", "notification_errorNumber",
   "notification_id", "notification_text", "critical_errors_count",
   "other_notifications_count", "additional_status_fields_count"]

/-- The number a digit sequence stands for, read after the number `acc`. -/
def decodeAcc (acc : Nat) (cs : List Char) : Nat :=
  cs.foldl (fun a c => 10 * a + (c.toNat - 48)) acc

/-- The key begins with the text `p`. -/
def startsWith (p k : String) : Bool := p.data.isPrefixOf k.data

/-- The key begins with the text `p` followed by a decimal digit. -/
def startsWithIndex (p k : String) : Bool :=
  match k.data.drop p.data.length with
  | c :: _ => startsWith p k && c.isDigit
  | [] => false

/-- The number written in the key right after its first `n` characters. -/
def keyIndex (n : Nat) (k : String) : Nat :=
  decodeAcc 0 ((k.data.drop n).takeWhile Char.isDigit)

/-- The rule a key belongs to, by its shape: 0 to 13 for the fixed keys (in the order of
`fixedKeys`), 14 for none, 15 for `hygiene_...`, 16 to 19 for the indexed keys of
`notifications`, `critical`, `other_notifications` and `additional`. -/
def keyClass (k : String) : Nat :=
  if startsWith "hygiene_" k then 15
  else if startsWithIndex "notifications_" k then 16
  else if startsWithIndex "critical_" k then 17
  else if startsWithIndex "other_notifications_" k then 18
  else if startsWithIndex "additional_" k then 19
  else fixedKeys.indexOf k

end HomeAssistant

namespace HomeAssistant

/-- The key is the text `p`, then the decimal text of `j`, then something that does not
go on with a digit. -/
def IndexedAt (p : String) (j : Nat) (k : String) : Prop :=
  ∃ rest : List Char, k.data = p.data ++ (Nat.repr j).data ++ rest ∧
    ∀ c, rest.head? = some c → c.isDigit = false

end HomeAssistant

namespace HomeAssistant

/-- The `put` calls of `makeHaFlat` that are not made in a loop, in the order they are
made. -/
def fixedWrites (status : QJsonObject) : List (String × QJsonValue) :=
  [("device_id",
      .string ((status.value "deviceId").toString ((status.value "id").toString ""))),
   ("id", .string ((status.value "id").toString "")),
   ("is_online", .bool (status.value "isOnline").toBool),
   ("is_in_use", .bool (status.value "isInUse").toBool),
   ("has_info", status.value "hasInfo"),
   ("notifications_count", .double (status.value "notifications").toArray.length)] ++
  firstNotificationWrites (status.value "notifications").toArray ++
  [("critical_errors_count", .double (status.value "criticalErrors").toArray.length),
   ("other_notifications_count",
      .double (status.value "otherNotifications").toArray.length),
   ("additional_status_fields_count",
      .double (status.value "additionalStatusFields").toArray.length)]

/-- The ten top-level keys of a status document that `makeHaFlat` reads. -/
def recognisedKeys : List String :=
  ["deviceId", "id", "isOnline", "isInUse", "hasInfo", "hygieneState", "notifications",
   "criticalErrors", "otherNotifications", "additionalStatusFields"]

end HomeAssistant

namespace HomeAssistant

/-- The keys of the `put` calls of `makeHaFlat`, grouped by the rule that writes them:
the number of the rule (see `keyClass`) with its keys, in the order of writing. -/
def segments (status : QJsonObject) : List (Nat × List String) :=
  [(0, ["device_id"]), (1, ["id"]), (2, ["is_online"]), (3, ["is_in_use"]),
   (4, ["has_info"]),
   (15, (memberWrites "hygiene_" (status.value "hygieneState").toObject).map Prod.fst),
   (5, ["notifications_count"]), (6, ["notification_category"]),
   (7, ["notification_description"]), (8, ["notification_errorNumber"]),
   (9, ["notification_id"]), (10, ["notification_text"]),
   (16, (objectListWrites "notifications" 0
      (status.value "notifications").toArray).map Prod.fst),
   (11, ["critical_errors_count"]),
   (17, (objectListWrites "critical" 0
      (status.value "criticalErrors").toArray).map Prod.fst),
   (12, ["other_notifications_count"]),
   (18, (objectListWrites "other_notifications" 0
      (status.value "otherNotifications").toArray).map Prod.fst),
   (13, ["additional_status_fields_count"]),
   (19, (additionalWrites 0
      (status.value "additionalStatusFields").toArray).map Prod.fst)]

end HomeAssistant

/-! ## Theorems -/

namespace HomeAssistant

/-! ### The gate -/

theorem broadcastHaFlat_owner (h : HomeAssistant) (now : Int) (doc : QJsonObject)
    (force : Bool) :
    broadcastHaFlat h h.thread now doc force =
      if !force && gateCloses h now (makeHaFlat doc) then (h, [])
      else ({ h with m_lastSend := some now, m_lastFlat := makeHaFlat doc },
            sendEffects h (makeHaFlat doc)) := by
  unfold broadcastHaFlat gateCloses sendEffects broadcastJson broadcastText
  cases force <;> simp
  split_ifs <;> simp_all

theorem frames_append (a b : List Effect) : frames (a ++ b) = frames a ++ frames b := by
  simp [frames]

theorem broadcasts_append (a b : List Effect) :
    broadcasts (a ++ b) = broadcasts a + broadcasts b := by
  simp [broadcasts]

theorem frames_sendEffects (h : HomeAssistant) (flat : QJsonObject) :
    frames (sendEffects h flat) =
      h.w_clients.map (fun s => (s, QJsonDocument.toJson flat)) := by
  unfold sendEffects frames
  induction h.w_clients with
  | nil => simp [Effect.frame?]
  | cons s rest ih =>
    simp only [List.flatMap_cons, List.cons_append, List.nil_append, List.map_cons]
    simp only [List.filterMap_cons, Effect.frame?]
    rw [ih]

theorem broadcasts_sendEffects (h : HomeAssistant) (flat : QJsonObject) :
    broadcasts (sendEffects h flat) = 1 := by
  unfold sendEffects broadcasts
  induction h.w_clients with
  | nil => simp
  | cons s rest ih =>
    simp only [List.flatMap_cons, List.cons_append, List.nil_append]
    rw [List.countP_cons, List.countP_cons, ih]
    simp

end HomeAssistant

/-! ### Objects: lookup after insertion -/

namespace QJsonObject

theorem insertSorted_ne_nil (o : QJsonObject) (k : String) (v : QJsonValue) :
    insertSorted o k v ≠ [] := by
  cases o with
  | nil => simp [insertSorted]
  | cons p rest =>
    obtain ⟨k', w⟩ := p
    simp only [insertSorted]
    split_ifs <;> simp

theorem value_insertSorted_self (o : QJsonObject) (k : String) (v : QJsonValue) :
    value (insertSorted o k v) k = v := by
  induction o with
  | nil => simp [insertSorted, value]
  | cons p rest ih =>
    obtain ⟨k', w⟩ := p
    simp only [insertSorted]
    split_ifs with h1 h2
    · simp [value]
    · simp [value]
    · have : ¬ k' = k := fun e => h2 e.symm
      simp [value, this, ih]

theorem value_insertSorted_ne (o : QJsonObject) (k k' : String) (v : QJsonValue)
    (hne : k' ≠ k) : value (insertSorted o k v) k' = value o k' := by
  induction o with
  | nil => simp [insertSorted, value, hne.symm]
  | cons p rest ih =>
    obtain ⟨k0, w⟩ := p
    simp only [insertSorted]
    split_ifs with h1 h2
    · simp [value, hne.symm]
    · subst h2
      simp [value, hne.symm]
    · simp only [value, ih]

theorem contains_insertSorted_self (o : QJsonObject) (k : String) (v : QJsonValue) :
    contains (insertSorted o k v) k = true := by
  induction o with
  | nil => simp [insertSorted, contains]
  | cons p rest ih =>
    obtain ⟨k', w⟩ := p
    simp only [insertSorted]
    split_ifs with h1 h2
    · simp [contains]
    · simp [contains]
    · have : ¬ k' = k := fun e => h2 e.symm
      simp [contains, this, ih]

theorem contains_insertSorted_of_contains (o : QJsonObject) (k k' : String)
    (v : QJsonValue) (hc : contains o k' = true) :
    contains (insertSorted o k v) k' = true := by
  induction o with
  | nil => simp [contains] at hc
  | cons p rest ih =>
    obtain ⟨k0, w⟩ := p
    simp only [insertSorted]
    split_ifs with h1 h2
    · simp only [contains] at hc ⊢
      split_ifs <;> simp_all
    · subst h2
      simp only [contains] at hc ⊢
      split_ifs <;> simp_all
    · simp only [contains] at hc ⊢
      split_ifs <;> simp_all

theorem mem_insertSorted (o : QJsonObject) (k : String) (v : QJsonValue)
    (p : String × QJsonValue) (hp : p ∈ insertSorted o k v) : p = (k, v) ∨ p ∈ o := by
  induction o with
  | nil => simpa [insertSorted] using hp
  | cons q rest ih =>
    obtain ⟨k0, w⟩ := q
    simp only [insertSorted] at hp
    split_ifs at hp with h1 h2
    · simpa using hp
    · rcases List.mem_cons.1 hp with h | h
      · exact Or.inl h
      · exact Or.inr (List.mem_cons_of_mem _ h)
    · rcases List.mem_cons.1 hp with h | h
      · exact Or.inr (h ▸ List.mem_cons_self _ _)
      · rcases ih h with h' | h'
        · exact Or.inl h'
        · exact Or.inr (List.mem_cons_of_mem _ h')

end QJsonObject

namespace HomeAssistant

open QJsonObject

/-! ### `put` and the loops built from it -/

theorem stored_ne_null (v : QJsonValue) : stored v ≠ .null := by
  cases v <;> simp [stored, QJsonValue.isUndefined, QJsonValue.isNull]

theorem stored_ne_undef (v : QJsonValue) : stored v ≠ .undefined := by
  cases v <;> simp [stored, QJsonValue.isUndefined, QJsonValue.isNull]

theorem put_eq (flat : QJsonObject) (k : String) (v : QJsonValue) :
    put flat k v = insertSorted flat k (stored v) := by
  cases v <;> simp [put, stored, QJsonObject.insert, QJsonValue.isUndefined, QJsonValue.isNull]

theorem value_put_self (flat : QJsonObject) (k : String) (v : QJsonValue) :
    value (put flat k v) k = stored v := by
  rw [put_eq, value_insertSorted_self]

theorem value_put_ne (flat : QJsonObject) (k k' : String) (v : QJsonValue) (hne : k' ≠ k) :
    value (put flat k v) k' = value flat k' := by
  rw [put_eq, value_insertSorted_ne _ _ _ _ hne]

/-- A property of flat documents that every `put` preserves is preserved by the
member loop. -/
theorem putMembers_preserves (P : QJsonObject → Prop)
    (hP : ∀ flat k v, P flat → P (put flat k v)) (pre : String) (o : QJsonObject) :
    ∀ flat, P flat → P (putMembers flat pre o) := by
  induction o with
  | nil => intro flat h; exact h
  | cons p rest ih =>
    intro flat h
    exact ih _ (hP _ _ _ h)

theorem putObjectList_preserves (P : QJsonObject → Prop)
    (hP : ∀ flat k v, P flat → P (put flat k v)) (ns : String) (xs : QJsonArray) :
    ∀ flat i, P flat → P (putObjectList ns flat i xs) := by
  induction xs with
  | nil => intro flat i h; exact h
  | cons x rest ih =>
    intro flat i h
    exact ih _ _ (putMembers_preserves P hP _ _ _ h)

theorem putAdditional_preserves (P : QJsonObject → Prop)
    (hP : ∀ flat k v, P flat → P (put flat k v)) (xs : QJsonArray) :
    ∀ flat i, P flat → P (putAdditional flat i xs) := by
  induction xs with
  | nil => intro flat i h; exact h
  | cons x rest ih =>
    intro flat i h
    simp only [putAdditional]
    split_ifs
    · exact ih _ _ (putMembers_preserves P hP _ _ _ h)
    · exact ih _ _ (hP _ _ _ h)
    · exact ih _ _ (hP _ _ _ h)

theorem putFirstNotification_preserves (P : QJsonObject → Prop)
    (hP : ∀ flat k v, P flat → P (put flat k v)) (notifs : QJsonArray)
    (flat : QJsonObject) (h : P flat) : P (putFirstNotification flat notifs) := by
  unfold putFirstNotification
  split_ifs
  · exact hP _ _ _ (hP _ _ _ (hP _ _ _ (hP _ _ _ (hP _ _ _ h))))
  · exact hP _ _ _ (hP _ _ _ (hP _ _ _ (hP _ _ _ (hP _ _ _ h))))

/-- A property that holds after the first `put` of `makeHaFlat` and that every
`put` preserves holds of the result. -/
theorem makeHaFlat_preserves (P : QJsonObject → Prop)
    (hP : ∀ flat k v, P flat → P (put flat k v)) (status : QJsonObject)
    (h0 : ∀ v, P (put [] "device_id" v)) : P (makeHaFlat status) := by
  unfold makeHaFlat
  apply putAdditional_preserves P hP
  apply hP
  apply putObjectList_preserves P hP
  apply hP
  apply putObjectList_preserves P hP
  apply hP
  apply putObjectList_preserves P hP
  apply putFirstNotification_preserves P hP
  apply hP
  apply putMembers_preserves P hP
  apply hP
  apply hP
  apply hP
  apply hP
  apply h0

theorem makeHaFlat_ne_nil (status : QJsonObject) : makeHaFlat status ≠ [] := by
  apply makeHaFlat_preserves (fun o => o ≠ [])
  · intro flat k v _
    rw [put_eq]
    exact insertSorted_ne_nil _ _ _
  · intro v
    rw [put_eq]
    exact insertSorted_ne_nil _ _ _

end HomeAssistant

namespace HomeAssistant

/-! ### Dedupe, throttle, force -/

theorem gateCloses_after_send (h : HomeAssistant) (t now : Int) (doc : QJsonObject) :
    gateCloses { h with m_lastSend := some t, m_lastFlat := makeHaFlat doc } now
      (makeHaFlat doc) = true := by
  have hne := makeHaFlat_ne_nil doc
  cases hm : makeHaFlat doc with
  | nil => exact absurd hm hne
  | cons p rest => simp [gateCloses, QJsonObject.isEmpty]

/-- C1 (dedupe). For every object state `h` (any last-sent snapshot, any timer value),
every status document `doc` and any two clock readings `t1`, `t2`: of two successive
non-forced calls `broadcastHaFlat(doc, false)` on the owning thread, at least one has no
effect at all, so at most one flat broadcast is made in total and at most one frame per
registered socket is sent. -/
theorem dedupe_at_most_one_broadcast (h : HomeAssistant) (doc : QJsonObject)
    (t1 t2 : Int) :
    broadcasts ((broadcastHaFlat h h.thread t1 doc false).2 ++
      (broadcastHaFlat (broadcastHaFlat h h.thread t1 doc false).1 h.thread t2 doc false).2)
      ≤ 1 ∧
    ((broadcastHaFlat h h.thread t1 doc false).2 = [] ∨
      (broadcastHaFlat (broadcastHaFlat h h.thread t1 doc false).1 h.thread t2 doc false).2
        = []) ∧
    (frames ((broadcastHaFlat h h.thread t1 doc false).2 ++
      (broadcastHaFlat (broadcastHaFlat h h.thread t1 doc false).1 h.thread t2 doc
        false).2)).length ≤ h.w_clients.length := by
  rw [broadcastHaFlat_owner h t1 doc false]
  cases hg : gateCloses h t1 (makeHaFlat doc)
  · -- the first call goes through, the second sees its own snapshot
    have h2 := broadcastHaFlat_owner
      { h with m_lastSend := some t1, m_lastFlat := makeHaFlat doc } t2 doc false
    simp only [Bool.not_false, Bool.and_false, Bool.false_eq_true, if_false]
    have h2' : broadcastHaFlat
        { h with m_lastSend := some t1, m_lastFlat := makeHaFlat doc } h.thread t2 doc false
        = ({ h with m_lastSend := some t1, m_lastFlat := makeHaFlat doc }, []) := by
      rw [h2, gateCloses_after_send]
      simp
    rw [h2']
    simp [broadcasts_sendEffects, frames_sendEffects]
  · -- the first call is suppressed and leaves the state as it was
    simp only [Bool.not_false, Bool.and_true, if_true, List.nil_append]
    rw [broadcastHaFlat_owner h t2 doc false]
    split_ifs
    · simp [broadcasts, frames]
    · simp [broadcasts_sendEffects, frames_sendEffects]

/-- C2 (throttle). From a state that has never sent (empty snapshot, invalid timer),
three non-forced calls on the owning thread at clock readings `t1`, `t2`, `t3` with
`t2 - t1 < 150` and `t3 - t1 ≥ 150`, the third document flattening to something else
than the first (the one last sent): the first call sends its flat document to every
registered socket, the second has no effect, the third sends its flat document to every
registered socket. (Nothing is asked of the second document, nor of the order of `t1`
and `t2`.) -/
theorem throttle_first_and_third_send (h : HomeAssistant) (d1 d2 d3 : QJsonObject)
    (t1 t2 t3 : Int) (hflat : h.m_lastFlat = []) (htimer : h.m_lastSend = none)
    (h12 : t2 - t1 < 150) (h13 : 150 ≤ t3 - t1)
    (hchanged : makeHaFlat d3 ≠ makeHaFlat d1) :
    (broadcasts (broadcastHaFlat h h.thread t1 d1 false).2 = 1 ∧
      frames (broadcastHaFlat h h.thread t1 d1 false).2 =
        h.w_clients.map (fun s => (s, QJsonDocument.toJson (makeHaFlat d1)))) ∧
    (broadcastHaFlat (broadcastHaFlat h h.thread t1 d1 false).1 h.thread t2 d2 false).2
      = [] ∧
    (broadcasts (broadcastHaFlat
        (broadcastHaFlat (broadcastHaFlat h h.thread t1 d1 false).1 h.thread t2 d2 false).1
        h.thread t3 d3 false).2 = 1 ∧
      frames (broadcastHaFlat
        (broadcastHaFlat (broadcastHaFlat h h.thread t1 d1 false).1 h.thread t2 d2 false).1
        h.thread t3 d3 false).2 =
        h.w_clients.map (fun s => (s, QJsonDocument.toJson (makeHaFlat d3)))) := by
  have e1 : broadcastHaFlat h h.thread t1 d1 false =
      ({ h with m_lastSend := some t1, m_lastFlat := makeHaFlat d1 },
       sendEffects h (makeHaFlat d1)) := by
    rw [broadcastHaFlat_owner]
    simp [gateCloses, hflat, htimer, QJsonObject.isEmpty]
  have e2 : broadcastHaFlat
      { h with m_lastSend := some t1, m_lastFlat := makeHaFlat d1 } h.thread t2 d2 false =
      ({ h with m_lastSend := some t1, m_lastFlat := makeHaFlat d1 }, []) := by
    have := broadcastHaFlat_owner
      { h with m_lastSend := some t1, m_lastFlat := makeHaFlat d1 } t2 d2 false
    rw [this]
    simp [gateCloses, elapsed, h12]
  have e3 : broadcastHaFlat
      { h with m_lastSend := some t1, m_lastFlat := makeHaFlat d1 } h.thread t3 d3 false =
      ({ h with m_lastSend := some t3, m_lastFlat := makeHaFlat d3 },
       sendEffects h (makeHaFlat d3)) := by
    have := broadcastHaFlat_owner
      { h with m_lastSend := some t1, m_lastFlat := makeHaFlat d1 } t3 d3 false
    rw [this]
    have hnot : ¬ (t3 - t1 < 150) := by omega
    simp [gateCloses, elapsed, hnot, hchanged, sendEffects]
  rw [e1]
  simp only []
  rw [e2]
  simp only []
  rw [e3]
  simp [broadcasts_sendEffects, frames_sendEffects]

/-- Instance of C2: a new object with sockets 1 and 2, calls at 0 ms, 100 ms and
200 ms with three different documents. -/
theorem throttle_first_and_third_send_witness :
    ((100 : Int) - 0 < 150 ∧ (150 : Int) ≤ 200 - 0 ∧
      makeHaFlat [("id", .string "x")] ≠ makeHaFlat [("isOnline", .bool true)]) ∧
    (broadcastHaFlat
      (broadcastHaFlat { new 0 with w_clients := [1, 2] } 0 0
        [("isOnline", .bool true)] false).1 0 100 [("isOnline", .bool false)] false).2
      = [] ∧
    broadcasts (broadcastHaFlat
      (broadcastHaFlat
        (broadcastHaFlat { new 0 with w_clients := [1, 2] } 0 0
          [("isOnline", .bool true)] false).1 0 100 [("isOnline", .bool false)] false).1
      0 200 [("id", .string "x")] false).2 = 1 :=
  have w := throttle_first_and_third_send { new 0 with w_clients := [1, 2] }
    [("isOnline", .bool true)] [("isOnline", .bool false)] [("id", .string "x")]
    0 100 200 rfl rfl (by decide) (by decide) (by decide)
  ⟨⟨by decide, by decide, by decide⟩, w.2.1, w.2.2.1⟩

/-- C3 (force). For every object state `h` (any snapshot, also one equal to the new
flat document; any timer value, also one started less than 150 ms ago), every clock
reading and every status document, `broadcastHaFlat(doc, true)` on the owning thread
makes one flat broadcast: the compact JSON of `makeHaFlat(doc)` goes to every
registered socket, once each. -/
theorem force_always_sends (h : HomeAssistant) (now : Int) (doc : QJsonObject) :
    frames (broadcastHaFlat h h.thread now doc true).2 =
      h.w_clients.map (fun s => (s, QJsonDocument.toJson (makeHaFlat doc))) ∧
    broadcasts (broadcastHaFlat h h.thread now doc true).2 = 1 := by
  rw [broadcastHaFlat_owner]
  simp [broadcasts_sendEffects, frames_sendEffects]

end HomeAssistant

/-! ### Key order -/

theorem ltChars_irrefl (a : List Char) : ltChars a a = false := by
  induction a with
  | nil => rfl
  | cons c rest ih => simp [ltChars, ih]

theorem ltChars_asymm (a b : List Char) (h : ltChars a b = true) : ltChars b a = false := by
  induction a generalizing b with
  | nil => cases b <;> simp_all [ltChars]
  | cons c rest ih =>
    cases b with
    | nil => simp [ltChars] at h
    | cons d rest' =>
      simp only [ltChars] at h ⊢
      split_ifs at h with h1 h2
      · have h3 : ¬ d.toNat < c.toNat := by omega
        have h4 : ¬ d.toNat = c.toNat := by omega
        simp [h3, h4]
      · have h3 : ¬ d.toNat < c.toNat := by omega
        simp [h3, h2, ih _ h]

theorem keyLt_asymm (a b : String) (h : keyLt a b = true) : keyLt b a = false :=
  ltChars_asymm _ _ h

theorem keyLt_ne (a b : String) (h : keyLt a b = true) : a ≠ b := by
  intro e
  subst e
  simp [keyLt, ltChars_irrefl] at h

/-! ### The attribute map of a record -/

namespace QMap

theorem insert_of_all_lt (m : QMap) (k v : QByteArray)
    (hlt : ∀ p ∈ m, keyLt p.1 k = true) : insert m k v = m ++ [(k, v)] := by
  induction m with
  | nil => rfl
  | cons p rest ih =>
    obtain ⟨k0, w⟩ := p
    have h0 : keyLt k0 k = true := hlt (k0, w) (List.mem_cons_self _ _)
    have h1 : keyLt k k0 = false := keyLt_asymm _ _ h0
    have h2 : ¬ k = k0 := fun e => keyLt_ne _ _ h0 e.symm
    simp only [insert, h1, h2, Bool.false_eq_true, if_false, List.cons_append]
    rw [ih (fun p hp => hlt p (List.mem_cons_of_mem _ hp))]

end QMap

namespace HomeAssistant

theorem foldl_addAttribute (rest : QMap) :
    ∀ (s : QMdnsEngine.Service),
      List.Pairwise (fun a b => keyLt a b = true) (List.map Prod.fst (s.attributes ++ rest)) →
      List.foldl (fun acc kv => QMdnsEngine.Service.addAttribute acc kv.1 kv.2) s rest =
        { s with attributes := s.attributes ++ rest } := by
  induction rest with
  | nil => intro s _; simp
  | cons p rest ih =>
    intro s hp
    obtain ⟨k, v⟩ := p
    have hall : ∀ q ∈ s.attributes, keyLt q.1 k = true := by
      intro q hq
      rw [List.map_append, List.pairwise_append] at hp
      exact hp.2.2 q.1 (List.mem_map_of_mem _ hq) k (by simp)
    have hins : QMap.insert s.attributes k v = s.attributes ++ [(k, v)] :=
      QMap.insert_of_all_lt _ _ _ hall
    simp only [List.foldl_cons]
    rw [ih]
    · simp [QMdnsEngine.Service.addAttribute, hins]
    · simpa [QMdnsEngine.Service.addAttribute, hins] using hp

theorem buildService_eq (h : HomeAssistant) (hwf : QMap.WF h.mdns_txt) :
    buildService h =
      { type := h.mdns_serviceType, name := h.mdns_instanceName, port := h.mdns_port,
        attributes := h.mdns_txt } := by
  unfold buildService
  rw [foldl_addAttribute]
  · simp [QMdnsEngine.Service.new, QMdnsEngine.Service.setType,
      QMdnsEngine.Service.setName, QMdnsEngine.Service.setPort]
  · simpa [QMdnsEngine.Service.new, QMdnsEngine.Service.setType,
      QMdnsEngine.Service.setName, QMdnsEngine.Service.setPort] using hwf

/-! ### The advertiser -/

/-- C4, as stated, fails: after `start_mdns` with valid parameters, `stop_mdns` followed
by `republish_mdns` does not bring back a record. -/
theorem stop_then_republish_stays_unpublished :
    published (republish_mdns (stop_mdns
      (start_mdns (new 0) "_ha._tcp" "hub" 8090 [("path", "/")]).1).1).1 = false ∧
    providerUpdates (republish_mdns (stop_mdns
      (start_mdns (new 0) "_ha._tcp" "hub" 8090 [("path", "/")]).1).1).2 = [] := by
  decide

/-- C4, amended. (1) For every state `h` and all parameters, after `start_mdns`,
`stop_mdns` then `republish_mdns` leaves the advertiser unpublished: `stop_mdns` has
dropped the record and cleared the cached type, name, port and attributes, and
`republish_mdns` changes nothing, hands nothing to the provider and only warns.
(2) From a state `g` with no current record whose cached type and name are non-empty
and whose cached port is non-zero (cached attributes a well-formed map),
`republish_mdns` re-enters Published: the current record is built from the cached type,
name, port and attributes and is handed to the provider. -/
theorem republish_after_stop_and_from_cache (h : HomeAssistant)
    (serviceType instanceName : String) (port : Nat) (txt : QMap) (g : HomeAssistant)
    (hnone : g.mdns_service = none) (htype : g.mdns_serviceType ≠ "")
    (hname : g.mdns_instanceName ≠ "") (hport : g.mdns_port ≠ 0)
    (hwf : QMap.WF g.mdns_txt) :
    ((stop_mdns (start_mdns h serviceType instanceName port txt).1).1.mdns_service = none ∧
      (stop_mdns (start_mdns h serviceType instanceName port txt).1).1.mdns_serviceType = "" ∧
      (stop_mdns (start_mdns h serviceType instanceName port txt).1).1.mdns_instanceName = "" ∧
      (stop_mdns (start_mdns h serviceType instanceName port txt).1).1.mdns_port = 0 ∧
      (stop_mdns (start_mdns h serviceType instanceName port txt).1).1.mdns_txt = [] ∧
      republish_mdns (stop_mdns (start_mdns h serviceType instanceName port txt).1).1 =
        ((stop_mdns (start_mdns h serviceType instanceName port txt).1).1,
         [.log .warning "[MdnsService] republish() skipped; no cached parameters."])) ∧
    ((republish_mdns g).1.mdns_service =
        some { type := g.mdns_serviceType, name := g.mdns_instanceName,
               port := g.mdns_port, attributes := g.mdns_txt } ∧
      published (republish_mdns g).1 = true ∧
      providerUpdates (republish_mdns g).2 =
        [{ type := g.mdns_serviceType, name := g.mdns_instanceName,
           port := g.mdns_port, attributes := g.mdns_txt }]) := by
  refine ⟨⟨rfl, rfl, rfl, rfl, rfl, ?_⟩, ?_⟩
  · simp [republish_mdns, stop_mdns, start_mdns]
  · have ht : g.mdns_serviceType.isEmpty = false := by
      rw [Bool.eq_false_iff]
      intro e
      exact htype ((String.isEmpty_iff _).1 e)
    have hn : g.mdns_instanceName.isEmpty = false := by
      rw [Bool.eq_false_iff]
      intro e
      exact hname ((String.isEmpty_iff _).1 e)
    have hb := buildService_eq g hwf
    unfold republish_mdns
    rw [hnone]
    cases hpv : g.mdns_provider <;> cases hs : g.mdns_server <;>
      cases hh : g.mdns_hostname <;>
      simp [ht, hn, hport, hb, hs, hh, published, providerUpdates, Effect.providerUpdate?]

/-- Instance of C4 (amended): a state with nothing current and a full cache. -/
theorem republish_after_stop_and_from_cache_witness :
    published (republish_mdns
      { new 0 with mdns_serviceType := "_ha._tcp", mdns_instanceName := "hub",
                   mdns_port := 8090, mdns_txt := [("path", "/")] }).1 = true :=
  (republish_after_stop_and_from_cache (new 0) "_ha._tcp" "hub" 8090 []
    { new 0 with mdns_serviceType := "_ha._tcp", mdns_instanceName := "hub",
                 mdns_port := 8090, mdns_txt := [("path", "/")] }
    rfl (by decide) (by decide) (by decide) (by decide)).2.2.1

/-- C5, as stated, fails: `start_mdns` with port 0, with an empty service type, or with
an empty instance name does not refuse; it builds a record all the same, makes it
current and hands it to the provider. -/
theorem start_mdns_publishes_invalid_parameters :
    (published (start_mdns (new 0) "_ha._tcp" "hub" 0 []).1 = true ∧
      providerUpdates (start_mdns (new 0) "_ha._tcp" "hub" 0 []).2 =
        [{ type := "_ha._tcp", name := "hub", port := 0, attributes := [] }]) ∧
    (published (start_mdns (new 0) "" "hub" 8090 []).1 = true ∧
      providerUpdates (start_mdns (new 0) "" "hub" 8090 []).2 =
        [{ type := "", name := "hub", port := 8090, attributes := [] }]) ∧
    (published (start_mdns (new 0) "_ha._tcp" "" 8090 []).1 = true ∧
      providerUpdates (start_mdns (new 0) "_ha._tcp" "" 8090 []).2 =
        [{ type := "_ha._tcp", name := "", port := 8090, attributes := [] }]) := by
  decide

theorem foldl_addAttribute_fields (txt : QMap) :
    ∀ s : QMdnsEngine.Service,
      (List.foldl (fun acc kv => QMdnsEngine.Service.addAttribute acc kv.1 kv.2) s txt).type
        = s.type ∧
      (List.foldl (fun acc kv => QMdnsEngine.Service.addAttribute acc kv.1 kv.2) s txt).name
        = s.name ∧
      (List.foldl (fun acc kv => QMdnsEngine.Service.addAttribute acc kv.1 kv.2) s txt).port
        = s.port := by
  induction txt with
  | nil => intro s; exact ⟨rfl, rfl, rfl⟩
  | cons p rest ih =>
    intro s
    simp only [List.foldl_cons]
    have := ih (QMdnsEngine.Service.addAttribute s p.1 p.2)
    simpa [QMdnsEngine.Service.addAttribute] using this

/-- C5, amended. `start_mdns` does not look at its parameters: from every state and for
every service type, instance name, port and attribute map (port 0 and empty texts
included) the parameters are cached, a record with that type, name and port becomes the
current record, it is handed to the provider, and the state is Published. The one refusal
is in `republish_mdns`: from a state `g` with no current record in which the cached type
or the cached name is empty or the cached port is 0, it changes nothing, hands nothing to
the provider and only warns. -/
theorem start_mdns_never_refuses (h : HomeAssistant) (serviceType instanceName : String)
    (port : Nat) (txt : QMap) (g : HomeAssistant) (hnone : g.mdns_service = none)
    (hbad : g.mdns_serviceType = "" ∨ g.mdns_instanceName = "" ∨ g.mdns_port = 0) :
    (published (start_mdns h serviceType instanceName port txt).1 = true ∧
      (∃ svc : QMdnsEngine.Service,
        (start_mdns h serviceType instanceName port txt).1.mdns_service = some svc ∧
        providerUpdates (start_mdns h serviceType instanceName port txt).2 = [svc] ∧
        svc.type = serviceType ∧ svc.name = instanceName ∧ svc.port = port) ∧
      (start_mdns h serviceType instanceName port txt).1.mdns_serviceType = serviceType ∧
      (start_mdns h serviceType instanceName port txt).1.mdns_instanceName = instanceName ∧
      (start_mdns h serviceType instanceName port txt).1.mdns_port = port ∧
      (start_mdns h serviceType instanceName port txt).1.mdns_txt = txt) ∧
    republish_mdns g =
      (g, [.log .warning "[MdnsService] republish() skipped; no cached parameters."]) := by
  refine ⟨⟨rfl, ⟨_, rfl, rfl, ?_⟩, rfl, rfl, rfl, rfl⟩, ?_⟩
  · exact foldl_addAttribute_fields txt _
  · have hguard : (g.mdns_serviceType.isEmpty || g.mdns_instanceName.isEmpty ||
        g.mdns_port == 0) = true := by
      have hempty : "".isEmpty = true := by decide
      rcases hbad with e | e | e
      · simp [e, hempty]
      · simp [e, hempty]
      · simp [e]
    unfold republish_mdns
    rw [hnone]
    cases hp : g.mdns_provider <;> simp [hguard]

/-- Instance of C5 (amended): a new object has no record and nothing cached. -/
theorem start_mdns_never_refuses_witness :
    published (start_mdns (new 0) "_ha._tcp" "hub" 0 []).1 = true ∧
    republish_mdns (new 0) =
      (new 0, [.log .warning "[MdnsService] republish() skipped; no cached parameters."]) :=
  have w := start_mdns_never_refuses (new 0) "_ha._tcp" "hub" 0 [] (new 0) rfl
    (Or.inl rfl)
  ⟨w.1.1, w.2⟩

/-- C6. For every prior state and all parameters of two successive `start_mdns` calls
(the attributes of the second a well-formed map): afterwards the state is the one the
second call alone produces; the current record has the type, name, port and attributes
of the second call; the cached parameters are those of the second call; the second call
hands exactly that record to the provider. -/
theorem start_mdns_twice (h : HomeAssistant) (type1 name1 : String) (port1 : Nat)
    (txt1 : QMap) (type2 name2 : String) (port2 : Nat) (txt2 : QMap)
    (hwf : QMap.WF txt2) :
    (start_mdns (start_mdns h type1 name1 port1 txt1).1 type2 name2 port2 txt2).1 =
      (start_mdns h type2 name2 port2 txt2).1 ∧
    (start_mdns (start_mdns h type1 name1 port1 txt1).1 type2 name2 port2 txt2).1.mdns_service
      = some { type := type2, name := name2, port := port2, attributes := txt2 } ∧
    published (start_mdns (start_mdns h type1 name1 port1 txt1).1 type2 name2 port2 txt2).1
      = true ∧
    ((start_mdns (start_mdns h type1 name1 port1 txt1).1 type2 name2 port2 txt2).1.mdns_serviceType
        = type2 ∧
      (start_mdns (start_mdns h type1 name1 port1 txt1).1 type2 name2 port2 txt2).1.mdns_instanceName
        = name2 ∧
      (start_mdns (start_mdns h type1 name1 port1 txt1).1 type2 name2 port2 txt2).1.mdns_port
        = port2 ∧
      (start_mdns (start_mdns h type1 name1 port1 txt1).1 type2 name2 port2 txt2).1.mdns_txt
        = txt2) ∧
    providerUpdates
      (start_mdns (start_mdns h type1 name1 port1 txt1).1 type2 name2 port2 txt2).2 =
      [{ type := type2, name := name2, port := port2, attributes := txt2 }] := by
  refine ⟨?_, ?_, ?_, ⟨rfl, rfl, rfl, rfl⟩, ?_⟩
  · cases h1 : h.mdns_server <;> cases h2 : h.mdns_hostname <;> cases h3 : h.mdns_provider <;>
      simp [start_mdns, h1, h2, h3, buildService]
  · simp only [start_mdns]
    rw [buildService_eq]
    exact hwf
  · simp [start_mdns, published]
  · simp only [start_mdns, providerUpdates, List.filterMap_cons, Effect.providerUpdate?,
      List.filterMap_nil]
    rw [buildService_eq]
    exact hwf

/-- Instance of C6: two starts with different parameters on a new object. -/
theorem start_mdns_twice_witness :
    (start_mdns (start_mdns (new 0) "_a._tcp" "one" 8090 [("k", "1")]).1
      "_b._tcp" "two" 8123 [("a", "x"), ("b", "y")]).1.mdns_service =
      some { type := "_b._tcp", name := "two", port := 8123,
             attributes := [("a", "x"), ("b", "y")] } :=
  (start_mdns_twice (new 0) "_a._tcp" "one" 8090 [("k", "1")]
    "_b._tcp" "two" 8123 [("a", "x"), ("b", "y")] (by decide)).2.1

end HomeAssistant

namespace HomeAssistant

/-! ### The flat document of the empty status, and the end-to-end scenario -/

/-- C7, as stated, fails: for the empty status document `is_online` is the boolean
`false`, not the empty string (and so is `is_in_use`). -/
theorem makeHaFlat_empty_is_online_not_string :
    QJsonObject.value (makeHaFlat []) "is_online" ≠ .string "" ∧
    QJsonObject.value (makeHaFlat []) "is_in_use" ≠ .string "" := by
  decide

/-- C7, amended. `makeHaFlat` of the empty status document is the flat document whose
four count fields are 0, whose fields `device_id`, `id`, `has_info` and the five
`notification_*` fields are the empty string, and whose fields `is_online` and
`is_in_use` are the boolean `false`; it has no other field. -/
theorem makeHaFlat_empty :
    makeHaFlat [] =
      [("additional_status_fields_count", .double 0), ("critical_errors_count", .double 0),
       ("device_id", .string ""), ("has_info", .string ""), ("id", .string ""),
       ("is_in_use", .bool false), ("is_online", .bool false),
       ("notification_category", .string ""), ("notification_description", .string ""),
       ("notification_errorNumber", .string ""), ("notification_id", .string ""),
       ("notification_text", .string ""), ("notifications_count", .double 0),
       ("other_notifications_count", .double 0)] := by
  decide

set_option maxRecDepth 100000 in
/-- C8 (end-to-end). A new object starts listening on port 8090 and accepts two
different sockets `a` and `b`; then `broadcastHaFlat` of the status
`{"isOnline": true, "notifications": []}`, not forced, on the owning thread, at any
clock reading, sends one text frame to `a` and one to `b` and no other frame. The frame is
the compact JSON of the flat document, in which `is_online` is `true`,
`notifications_count` is 0 and `notification_category` is the empty string; its text is
the one written out below. -/
theorem scenario_two_clients_one_frame_each (th : QThread) (a b : QWebSocket) (now : Int)
    (hab : a ≠ b) :
    frames (broadcastHaFlat
      (onNewConnection (onNewConnection (start_webSocketServer (new th) 8090 true).1
        (some a)).1 (some b)).1
      th now [("isOnline", .bool true), ("notifications", .array [])] false).2 =
      [(a, QJsonDocument.toJson
            (makeHaFlat [("isOnline", .bool true), ("notifications", .array [])])),
       (b, QJsonDocument.toJson
            (makeHaFlat [("isOnline", .bool true), ("notifications", .array [])]))] ∧
    QJsonObject.value (makeHaFlat [("isOnline", .bool true), ("notifications", .array [])])
      "is_online" = .bool true ∧
    QJsonObject.value (makeHaFlat [("isOnline", .bool true), ("notifications", .array [])])
      "notifications_count" = .double 0 ∧
    QJsonObject.value (makeHaFlat [("isOnline", .bool true), ("notifications", .array [])])
      "notification_category" = .string "" ∧
    QJsonDocument.toJson
      (makeHaFlat [("isOnline", .bool true), ("notifications", .array [])]) =
      "\x7b\"additional_status_fields_count\":0,\"critical_errors_count\":0,\"device_id\":\"\",\"has_info\":\"\",\"id\":\"\",\"is_in_use\":false,\"is_online\":true,\"notification_category\":\"\",\"notification_description\":\"\",\"notification_errorNumber\":\"\",\"notification_id\":\"\",\"notification_text\":\"\",\"notifications_count\":0,\"other_notifications_count\":0\x7d" := by
  refine ⟨?_, by decide, by decide, by decide, by decide⟩
  have e : (onNewConnection (onNewConnection (start_webSocketServer (new th) 8090 true).1
      (some a)).1 (some b)).1 =
      { new th with w_server := some { listening := true }, w_listenport := 8090,
                    w_clients := [a, b] } := by
    simp [onNewConnection, start_webSocketServer, new, isListening, QSet.insert, hab.symm]
  rw [e]
  have hb := broadcastHaFlat_owner
    { new th with w_server := some { listening := true }, w_listenport := 8090,
                  w_clients := [a, b] }
    now [("isOnline", .bool true), ("notifications", .array [])] false
  simp only [new] at hb ⊢
  rw [hb]
  simp [gateCloses, QJsonObject.isEmpty, frames_sendEffects]

/-- Instance of C8: sockets 1 and 2 on thread 0 at clock reading 0. -/
theorem scenario_two_clients_one_frame_each_witness :
    (1 : QWebSocket) ≠ 2 ∧
    (frames (broadcastHaFlat
      (onNewConnection (onNewConnection (start_webSocketServer (new 0) 8090 true).1
        (some 1)).1 (some 2)).1
      0 0 [("isOnline", .bool true), ("notifications", .array [])] false).2).map Prod.fst
      = [1, 2] :=
  ⟨by decide, by
    rw [(scenario_two_clients_one_frame_each 0 1 2 0 (by decide)).1]
    rfl⟩

end HomeAssistant

namespace HomeAssistant

/-! ### The registry of client sockets -/

theorem QSet_insert_of_not_mem (l : List QWebSocket) (s : QWebSocket) (hs : s ∉ l) :
    QSet.insert l s = l ++ [s] := by
  simp [QSet.insert, hs]

theorem QSet_remove_length (l : List QWebSocket) (s : QWebSocket) (hnd : l.Nodup)
    (hs : s ∈ l) : (QSet.remove l s).length + 1 = l.length := by
  have he : QSet.remove l s = l.erase s := (List.Nodup.erase_eq_filter hnd s).symm
  have hpos : 0 < l.length := List.length_pos_of_mem hs
  rw [he, List.length_erase_of_mem hs]
  omega

theorem QSet_remove_nodup (l : List QWebSocket) (s : QWebSocket) (hnd : l.Nodup) :
    (QSet.remove l s).Nodup :=
  List.Nodup.filter _ hnd

theorem QSet_mem_of_mem_remove (l : List QWebSocket) (s x : QWebSocket)
    (hx : x ∈ QSet.remove l s) : x ∈ l :=
  (List.mem_filter.1 hx).1

theorem accepted_append (pre post : List ConnEvent) :
    accepted (pre ++ post) = accepted pre ++ accepted post := by
  induction pre with
  | nil => rfl
  | cons e rest ih => cases e <;> simp [accepted, ih]

theorem run_append (pre post : List ConnEvent) :
    ∀ g : HomeAssistant, (run g (pre ++ post)).1 = (run (run g pre).1 post).1 := by
  induction pre with
  | nil => intro g; rfl
  | cons e rest ih => intro g; simp [run, ih]

theorem disconnectsRegistered_append (pre post : List ConnEvent) :
    ∀ g : HomeAssistant, DisconnectsRegistered g (pre ++ post) →
      DisconnectsRegistered g pre ∧ DisconnectsRegistered (run g pre).1 post := by
  induction pre with
  | nil => intro g h; exact ⟨trivial, h⟩
  | cons e rest ih =>
    intro g h
    cases e with
    | accept s =>
      simp only [List.cons_append, DisconnectsRegistered] at h ⊢
      exact ih _ h
    | disconnect s =>
      simp only [List.cons_append, DisconnectsRegistered] at h ⊢
      exact ⟨⟨h.1, (ih _ h.2).1⟩, (ih _ h.2).2⟩

/-- The count after a run, with what the run keeps true of the registry. -/
theorem run_count (tr : List ConnEvent) :
    ∀ g : HomeAssistant, g.w_server.isSome = true → g.w_clients.Nodup →
      (accepted tr).Nodup → (∀ s ∈ accepted tr, s ∉ g.w_clients) →
      DisconnectsRegistered g tr →
      clientCount (run g tr).1 + disconnects tr = clientCount g + (accepted tr).length ∧
      (run g tr).1.w_clients.Nodup ∧ (run g tr).1.w_server.isSome = true := by
  induction tr with
  | nil => intro g hs hnd _ _ _; exact ⟨rfl, hnd, hs⟩
  | cons e rest ih =>
    intro g hs hnd hacc hnew hreg
    obtain ⟨srv, hsrv⟩ := Option.isSome_iff_exists.1 hs
    cases e with
    | accept s =>
      have hsn : s ∉ g.w_clients := hnew s (by simp [accepted])
      have hstep : (step g (.accept s)).1 = { g with w_clients := g.w_clients ++ [s] } := by
        simp [step, onNewConnection, hsrv, QSet_insert_of_not_mem _ _ hsn]
      simp only [accepted, List.nodup_cons] at hacc
      have := ih { g with w_clients := g.w_clients ++ [s] } hs
        (by
          show (g.w_clients ++ [s]).Nodup
          rw [List.nodup_append]
          exact ⟨hnd, List.nodup_singleton _, by
            intro x hx hx'
            rw [List.mem_singleton] at hx'
            exact hsn (hx' ▸ hx)⟩)
        hacc.2
        (by
          intro x hx hx'
          have hx'' : x ∈ g.w_clients ++ [s] := hx'
          rcases List.mem_append.1 hx'' with h1 | h1
          · exact hnew x (by simp [accepted, hx]) h1
          · rw [List.mem_singleton] at h1
            exact hacc.1 (h1 ▸ hx))
        (by
          have hr : DisconnectsRegistered (step g (.accept s)).1 rest := hreg
          rwa [hstep] at hr)
      simp only [run, hstep, accepted, disconnects, List.length_cons]
      refine ⟨?_, this.2⟩
      have h1 := this.1
      simp only [clientCount, List.length_append, List.length_singleton] at h1 ⊢
      omega
    | disconnect s =>
      have hmem : s ∈ g.w_clients := hreg.1
      have hstep : (step g (.disconnect s)).1 =
          { g with w_clients := QSet.remove g.w_clients s } := by
        simp [step, onSocketDisconnected]
      have := ih { g with w_clients := QSet.remove g.w_clients s } hs
        (QSet_remove_nodup _ _ hnd) hacc
        (by
          intro x hx hx'
          exact hnew x hx (QSet_mem_of_mem_remove _ _ _ hx'))
        (by
          have hr : DisconnectsRegistered (step g (.disconnect s)).1 rest := hreg.2
          rwa [hstep] at hr)
      simp only [run, hstep, accepted, disconnects]
      refine ⟨?_, this.2⟩
      have h1 := this.1
      have h2 := QSet_remove_length _ _ hnd hmem
      simp only [clientCount] at h1 ⊢
      omega

theorem countSignals_stop (h : HomeAssistant) :
    countSignals (stop_webSocketServer h).2 = if clientCount h = 0 then [] else [0] := by
  have h1 : ∀ cs : List QWebSocket, List.filterMap Effect.countSignal?
      (cs.flatMap fun sock =>
        [Effect.socketDisconnectSignals sock, Effect.socketClose sock,
         Effect.socketDeleteLater sock]) = [] := by
    intro cs
    induction cs with
    | nil => rfl
    | cons s rest ih =>
      simp only [List.flatMap_cons, List.cons_append, List.nil_append]
      simp [Effect.countSignal?, ih]
  simp only [stop_webSocketServer, countSignals, List.filterMap_append, h1, clientCount]
  cases hsrv : h.w_server with
  | none => by_cases hz : h.w_clients.length = 0 <;> simp [hz, Effect.countSignal?]
  | some srv =>
    cases hl : srv.listening <;> by_cases hz : h.w_clients.length = 0 <;>
      simp [hz, Effect.countSignal?]

/-- C9 (connection count). Let `h` have a listener and an empty registry, and let `tr` be
any sequence of accepts and disconnects in which the accepted sockets are pairwise
different and every disconnect is of a socket registered at that moment. With `N` the
number of accepts and `M` the number of disconnects: `M ≤ N` and `clientCount()` is
`N - M` afterwards; at every disconnect the count before is positive, the slot emits
`clientCountChanged` once, with the count before minus one, and that is the new count;
`stop_webSocketServer` then leaves the count 0 and emits `clientCountChanged(0)` once
when the count was non-zero and not at all when it was zero. -/
theorem connection_count_invariant (h : HomeAssistant) (tr : List ConnEvent)
    (hserver : h.w_server.isSome = true) (hempty : h.w_clients = [])
    (hdistinct : (accepted tr).Nodup) (hregistered : DisconnectsRegistered h tr) :
    disconnects tr ≤ (accepted tr).length ∧
    clientCount (run h tr).1 = (accepted tr).length - disconnects tr ∧
    (∀ pre s post, tr = pre ++ ConnEvent.disconnect s :: post →
      0 < clientCount (run h pre).1 ∧
      countSignals (onSocketDisconnected (run h pre).1 (some s)).2 =
        [clientCount (run h pre).1 - 1] ∧
      clientCount (onSocketDisconnected (run h pre).1 (some s)).1 =
        clientCount (run h pre).1 - 1) ∧
    clientCount (stop_webSocketServer (run h tr).1).1 = 0 ∧
    countSignals (stop_webSocketServer (run h tr).1).2 =
      (if clientCount (run h tr).1 = 0 then [] else [0]) := by
  have hnd : h.w_clients.Nodup := by rw [hempty]; exact List.nodup_nil
  have hnew : ∀ t : List ConnEvent, ∀ s ∈ accepted t, s ∉ h.w_clients := by
    intro t s _
    rw [hempty]
    exact List.not_mem_nil s
  have hc := (run_count tr h hserver hnd hdistinct (hnew tr) hregistered).1
  have h0 : clientCount h = 0 := by simp [clientCount, hempty]
  refine ⟨by omega, by omega, ?_, ?_, countSignals_stop _⟩
  · intro pre s post htr
    subst htr
    have hpre := disconnectsRegistered_append pre _ h hregistered
    rw [accepted_append] at hdistinct
    have hrun := run_count pre h hserver hnd (List.Nodup.of_append_left hdistinct)
      (hnew pre) hpre.1
    have hmem : s ∈ (run h pre).1.w_clients := hpre.2.1
    have hlen := QSet_remove_length _ _ hrun.2.1 hmem
    simp only [onSocketDisconnected, countSignals, clientCount, List.filterMap_cons,
      Effect.countSignal?, List.filterMap_nil]
    refine ⟨List.length_pos_of_mem hmem, ?_, ?_⟩
    · congr 1
      omega
    · omega
  · simp [stop_webSocketServer, clientCount]

/-- Instance of C9: three accepts and two disconnects, interleaved. -/
theorem connection_count_invariant_witness :
    clientCount (run (start_webSocketServer (new 0) 8090 true).1
      [.accept 1, .accept 2, .disconnect 1, .accept 3, .disconnect 3]).1 = 3 - 2 :=
  (connection_count_invariant (start_webSocketServer (new 0) 8090 true).1
    [.accept 1, .accept 2, .disconnect 1, .accept 3, .disconnect 3]
    (by decide) (by decide) (by decide) (by decide)).2.1

end HomeAssistant

namespace HomeAssistant

open QJsonObject

/-! ### `makeHaFlat` as a sequence of `put` calls -/

/-- Run a sequence of `put` calls. -/
theorem putMembers_eq (flat : QJsonObject) (pre : String) (o : QJsonObject) :
    putMembers flat pre o =
      List.foldl (fun acc kv => put acc kv.1 kv.2) flat (memberWrites pre o) := by
  simp [putMembers, memberWrites, List.foldl_map]

theorem putObjectList_eq (ns : String) (xs : QJsonArray) :
    ∀ (flat : QJsonObject) (i : Nat), putObjectList ns flat i xs =
      List.foldl (fun acc kv => put acc kv.1 kv.2) flat (objectListWrites ns i xs) := by
  induction xs with
  | nil => intro flat i; rfl
  | cons x rest ih =>
    intro flat i
    simp only [putObjectList, objectListWrites, List.foldl_append, ih, putMembers_eq]

theorem putAdditional_eq (xs : QJsonArray) :
    ∀ (flat : QJsonObject) (i : Nat), putAdditional flat i xs =
      List.foldl (fun acc kv => put acc kv.1 kv.2) flat (additionalWrites i xs) := by
  induction xs with
  | nil => intro flat i; rfl
  | cons x rest ih =>
    intro flat i
    simp only [putAdditional, additionalWrites, additionalElementWrites, List.foldl_append]
    split_ifs
    · rw [ih, putMembers_eq]
    · rw [ih]; rfl
    · rw [ih]; rfl

theorem putFirstNotification_eq (flat : QJsonObject) (notifs : QJsonArray) :
    putFirstNotification flat notifs =
      List.foldl (fun acc kv => put acc kv.1 kv.2) flat (firstNotificationWrites notifs) := by
  unfold putFirstNotification firstNotificationWrites
  split_ifs <;> rfl

theorem makeHaFlat_eq_writes (status : QJsonObject) :
    makeHaFlat status = List.foldl (fun acc kv => put acc kv.1 kv.2) [] (writes status) := by
  simp only [makeHaFlat, writes, List.foldl_append, putAdditional_eq, putObjectList_eq,
    putFirstNotification_eq, putMembers_eq, List.foldl_cons, List.foldl_nil]

/-! ### Lookup after a sequence of `put` calls -/

theorem value_foldl_put_of_not_mem (ws : List (String × QJsonValue)) (K : String)
    (hK : K ∉ ws.map Prod.fst) :
    ∀ flat : QJsonObject,
      value (List.foldl (fun acc kv => put acc kv.1 kv.2) flat ws) K = value flat K := by
  induction ws with
  | nil => intro flat; rfl
  | cons p rest ih =>
    intro flat
    simp only [List.map_cons, List.mem_cons, not_or] at hK
    simp only [List.foldl_cons]
    rw [ih hK.2, value_put_ne _ _ _ _ hK.1]

theorem value_foldl_put_of_mem (ws : List (String × QJsonValue)) (K : String)
    (v : QJsonValue) (hnd : (ws.map Prod.fst).Nodup) (hmem : (K, v) ∈ ws) :
    ∀ flat : QJsonObject,
      value (List.foldl (fun acc kv => put acc kv.1 kv.2) flat ws) K = stored v := by
  induction ws with
  | nil => simp at hmem
  | cons p rest ih =>
    intro flat
    simp only [List.map_cons, List.nodup_cons] at hnd
    simp only [List.foldl_cons]
    rcases List.mem_cons.1 hmem with e | e
    · subst e
      rw [value_foldl_put_of_not_mem _ _ hnd.1, value_put_self]
    · exact ih hnd.2 e _

end HomeAssistant

namespace HomeAssistant

/-! ### Decimal text of a position -/

theorem digitChar_isDigit (m : Nat) (hm : m < 10) : (Nat.digitChar m).isDigit = true := by
  interval_cases m <;> decide

theorem digitChar_toNat (m : Nat) (hm : m < 10) : (Nat.digitChar m).toNat - 48 = m := by
  interval_cases m <;> decide

theorem toDigitsCore_digits (fuel : Nat) : ∀ (n : Nat) (ds : List Char),
    (∀ c ∈ ds, c.isDigit = true) →
    ∀ c ∈ Nat.toDigitsCore 10 fuel n ds, c.isDigit = true := by
  induction fuel with
  | zero => intro n ds h; simpa [Nat.toDigitsCore] using h
  | succ f ih =>
    intro n ds h
    have hd : ∀ c ∈ Nat.digitChar (n % 10) :: ds, c.isDigit = true := by
      intro c hc
      rcases List.mem_cons.1 hc with e | e
      · rw [e]; exact digitChar_isDigit _ (Nat.mod_lt _ (by decide))
      · exact h c e
    simp only [Nat.toDigitsCore]
    split_ifs
    · exact hd
    · exact ih _ _ hd

theorem toDigitsCore_decode (fuel : Nat) : ∀ (n : Nat) (ds : List Char), n < fuel →
    decodeAcc 0 (Nat.toDigitsCore 10 fuel n ds) = decodeAcc n ds := by
  induction fuel with
  | zero => intro n ds h; omega
  | succ f ih =>
    intro n ds h
    simp only [Nat.toDigitsCore]
    split_ifs with h0
    · have hm : n % 10 = n := by omega
      have hd := digitChar_toNat (n % 10) (Nat.mod_lt n (by decide))
      rw [hm] at hd
      simp [decodeAcc, hm, hd]
    · rw [ih _ _ (by omega)]
      simp only [decodeAcc, List.foldl_cons, digitChar_toNat _ (Nat.mod_lt n (by decide))]
      congr 1
      omega

theorem toDigitsCore_ne_nil (fuel : Nat) : ∀ (n : Nat) (ds : List Char), ds ≠ [] →
    Nat.toDigitsCore 10 fuel n ds ≠ [] := by
  induction fuel with
  | zero => intro n ds h; simpa [Nat.toDigitsCore] using h
  | succ f ih =>
    intro n ds _
    simp only [Nat.toDigitsCore]
    split_ifs
    · simp
    · exact ih _ _ (by simp)

theorem repr_data (n : Nat) : (Nat.repr n).data = Nat.toDigits 10 n := rfl

theorem repr_digits (n : Nat) : ∀ c ∈ (Nat.repr n).data, c.isDigit = true :=
  toDigitsCore_digits _ _ _ (by simp)

theorem repr_decode (n : Nat) : decodeAcc 0 (Nat.repr n).data = n := by
  rw [repr_data, Nat.toDigits, toDigitsCore_decode _ _ _ (Nat.lt_succ_self n)]
  rfl

theorem repr_ne_nil (n : Nat) : (Nat.repr n).data ≠ [] := by
  rw [repr_data, Nat.toDigits, Nat.toDigitsCore]
  split_ifs
  · simp
  · exact toDigitsCore_ne_nil _ _ _ (by simp)

theorem takeWhile_digits_append (ds rest : List Char) (hds : ∀ c ∈ ds, c.isDigit = true)
    (hrest : ∀ c, rest.head? = some c → c.isDigit = false) :
    (ds ++ rest).takeWhile Char.isDigit = ds := by
  induction ds with
  | nil =>
    cases rest with
    | nil => rfl
    | cons c r => simp [List.takeWhile, hrest c rfl]
  | cons d r ih =>
    have hd : d.isDigit = true := hds d (List.mem_cons_self _ _)
    have hr := ih (fun c hc => hds c (List.mem_cons_of_mem _ hc))
    simp [List.takeWhile, hd, hr]

/-! ### Shape of the keys -/

theorem append_left_cancel (p a b : String) (h : p ++ a = p ++ b) : a = b := by
  have hd : (p ++ a).data = (p ++ b).data := by rw [h]
  simp only [String.data_append] at hd
  exact String.ext (List.append_cancel_left hd)

theorem keyIndex_of_indexedAt (p : String) (j : Nat) (k : String) (h : IndexedAt p j k) :
    keyIndex p.data.length k = j := by
  obtain ⟨rest, hk, hrest⟩ := h
  unfold keyIndex
  rw [hk, List.append_assoc, List.drop_left,
    takeWhile_digits_append _ _ (repr_digits j) hrest, repr_decode]

theorem startsWith_of_indexedAt (p : String) (j : Nat) (k : String) (h : IndexedAt p j k) :
    startsWith p k = true := by
  obtain ⟨rest, hk, _⟩ := h
  unfold startsWith
  rw [hk, List.append_assoc]
  exact List.isPrefixOf_iff_prefix.2 (List.prefix_append _ _)

theorem startsWithIndex_of_indexedAt (p : String) (j : Nat) (k : String)
    (h : IndexedAt p j k) : startsWithIndex p k = true := by
  have hs := startsWith_of_indexedAt p j k h
  obtain ⟨rest, hk, _⟩ := h
  unfold startsWithIndex
  rw [hk, List.append_assoc, List.drop_left]
  rcases hr : (Nat.repr j).data with _ | ⟨d, r⟩
  · exact absurd hr (repr_ne_nil j)
  · have hd : d.isDigit = true := repr_digits j d (by rw [hr]; exact List.mem_cons_self _ _)
    simp [hs, hd]

theorem startsWithIndex_false (p k : String) (h : startsWith p k = false) :
    startsWithIndex p k = false := by
  unfold startsWithIndex
  split <;> simp [h]

theorem indexedAt_ne (p : String) (i j : Nat) (a b : String) (ha : IndexedAt p i a)
    (hb : IndexedAt p j b) (hij : i ≠ j) : a ≠ b := by
  intro e
  subst e
  exact hij ((keyIndex_of_indexedAt p i a ha).symm.trans (keyIndex_of_indexedAt p j a hb))

theorem indexedAt_member (ns : String) (i : Nat) (k : String) :
    IndexedAt (ns ++ "_") i (indexedKey ns i ++ k) := by
  refine ⟨'_' :: k.data, ?_, ?_⟩
  · simp [indexedKey]
  · intro c hc
    simp only [List.head?_cons, Option.some.injEq] at hc
    subst hc
    decide

theorem indexedAt_scalar (i : Nat) : IndexedAt "additional_" i ("additional_" ++ Nat.repr i) := by
  refine ⟨[], ?_, ?_⟩
  · simp
  · intro c hc
    simp at hc

end HomeAssistant

namespace HomeAssistant

open QJsonObject

/-! ### The rule a key belongs to -/

theorem keyClass_hygiene (k : String) : keyClass ("hygiene_" ++ k) = 15 := by
  have h1 : startsWith "hygiene_" ("hygiene_" ++ k) = true := by
    unfold startsWith
    rw [String.data_append]
    exact List.isPrefixOf_iff_prefix.2 (List.prefix_append _ _)
  simp [keyClass, h1]

theorem keyClass_notifications (j : Nat) (k : String)
    (h : IndexedAt "notifications_" j k) : keyClass k = 16 := by
  have h2 := startsWithIndex_of_indexedAt _ _ _ h
  obtain ⟨rest, hk, _⟩ := h
  have h1 : startsWith "hygiene_" k = false := by simp [startsWith, hk, List.isPrefixOf]
  simp [keyClass, h1, h2]

theorem keyClass_critical (j : Nat) (k : String)
    (h : IndexedAt "critical_" j k) : keyClass k = 17 := by
  have h3 := startsWithIndex_of_indexedAt _ _ _ h
  obtain ⟨rest, hk, _⟩ := h
  have h1 : startsWith "hygiene_" k = false := by simp [startsWith, hk, List.isPrefixOf]
  have h2 : startsWithIndex "notifications_" k = false :=
    startsWithIndex_false _ _ (by simp [startsWith, hk, List.isPrefixOf])
  simp [keyClass, h1, h2, h3]

theorem keyClass_other (j : Nat) (k : String)
    (h : IndexedAt "other_notifications_" j k) : keyClass k = 18 := by
  have h4 := startsWithIndex_of_indexedAt _ _ _ h
  obtain ⟨rest, hk, _⟩ := h
  have h1 : startsWith "hygiene_" k = false := by simp [startsWith, hk, List.isPrefixOf]
  have h2 : startsWithIndex "notifications_" k = false :=
    startsWithIndex_false _ _ (by simp [startsWith, hk, List.isPrefixOf])
  have h3 : startsWithIndex "critical_" k = false :=
    startsWithIndex_false _ _ (by simp [startsWith, hk, List.isPrefixOf])
  simp [keyClass, h1, h2, h3, h4]

theorem keyClass_additional (j : Nat) (k : String)
    (h : IndexedAt "additional_" j k) : keyClass k = 19 := by
  have h5 := startsWithIndex_of_indexedAt _ _ _ h
  obtain ⟨rest, hk, _⟩ := h
  have h1 : startsWith "hygiene_" k = false := by simp [startsWith, hk, List.isPrefixOf]
  have h2 : startsWithIndex "notifications_" k = false :=
    startsWithIndex_false _ _ (by simp [startsWith, hk, List.isPrefixOf])
  have h3 : startsWithIndex "critical_" k = false :=
    startsWithIndex_false _ _ (by simp [startsWith, hk, List.isPrefixOf])
  have h4 : startsWithIndex "other_notifications_" k = false :=
    startsWithIndex_false _ _ (by simp [startsWith, hk, List.isPrefixOf])
  simp [keyClass, h1, h2, h3, h4, h5]

theorem keyClass_fixed : fixedKeys.map keyClass = List.range 14 := by decide

/-! ### The keys written by each loop -/

theorem keys_nodup_of_WF (o : QJsonObject) (h : WF o) : (keys o).Nodup :=
  List.Pairwise.imp (fun {a b} hab => keyLt_ne a b hab) h

theorem memberWrites_keys (pre : String) (o : QJsonObject) :
    (memberWrites pre o).map Prod.fst = (keys o).map (fun k => pre ++ k) := by
  simp [memberWrites, keys, List.map_map, Function.comp_def]

theorem memberWrites_keys_nodup (pre : String) (o : QJsonObject) (h : WF o) :
    ((memberWrites pre o).map Prod.fst).Nodup := by
  rw [memberWrites_keys]
  exact List.Nodup.map (fun a b hab => append_left_cancel pre a b hab) (keys_nodup_of_WF o h)

theorem objectListWrites_shape (ns : String) (xs : QJsonArray) :
    ∀ (i : Nat), ∀ K ∈ (objectListWrites ns i xs).map Prod.fst,
      ∃ j, i ≤ j ∧ IndexedAt (ns ++ "_") j K := by
  induction xs with
  | nil => intro i K hK; simp [objectListWrites] at hK
  | cons x rest ih =>
    intro i K hK
    simp only [objectListWrites, List.map_append, List.mem_append] at hK
    rcases hK with h | h
    · rw [memberWrites_keys] at h
      obtain ⟨k, _, rfl⟩ := List.mem_map.1 h
      exact ⟨i, le_refl _, indexedAt_member ns i k⟩
    · obtain ⟨j, hj, hK⟩ := ih (i + 1) K h
      exact ⟨j, by omega, hK⟩

theorem objectListWrites_keys_nodup (ns : String) (xs : QJsonArray)
    (hwf : ∀ x ∈ xs, WF x.toObject) :
    ∀ (i : Nat), ((objectListWrites ns i xs).map Prod.fst).Nodup := by
  induction xs with
  | nil => intro i; simp [objectListWrites]
  | cons x rest ih =>
    intro i
    simp only [objectListWrites, List.map_append]
    rw [List.nodup_append]
    refine ⟨memberWrites_keys_nodup _ _ (hwf x (List.mem_cons_self _ _)),
      ih (fun y hy => hwf y (List.mem_cons_of_mem _ hy)) (i + 1), ?_⟩
    intro K h1 h2
    rw [memberWrites_keys] at h1
    obtain ⟨k, _, rfl⟩ := List.mem_map.1 h1
    obtain ⟨j, hj, hK⟩ := objectListWrites_shape ns rest (i + 1) _ h2
    exact indexedAt_ne _ i j _ _ (indexedAt_member ns i k) hK (by omega) rfl

theorem additionalElementWrites_shape (i : Nat) (v : QJsonValue) :
    ∀ K ∈ (additionalElementWrites i v).map Prod.fst, IndexedAt "additional_" i K := by
  intro K hK
  unfold additionalElementWrites at hK
  split_ifs at hK
  · rw [memberWrites_keys] at hK
    obtain ⟨k, _, rfl⟩ := List.mem_map.1 hK
    exact indexedAt_member "additional" i k
  · simp only [List.map_cons, List.map_nil, List.mem_singleton] at hK
    subst hK
    exact indexedAt_scalar i
  · simp only [List.map_cons, List.map_nil, List.mem_singleton] at hK
    subst hK
    exact indexedAt_scalar i

theorem additionalElementWrites_keys_nodup (i : Nat) (v : QJsonValue) (h : WF v.toObject) :
    ((additionalElementWrites i v).map Prod.fst).Nodup := by
  unfold additionalElementWrites
  split_ifs
  · exact memberWrites_keys_nodup _ _ h
  · simp
  · simp

theorem additionalWrites_shape (xs : QJsonArray) :
    ∀ (i : Nat), ∀ K ∈ (additionalWrites i xs).map Prod.fst,
      ∃ j, i ≤ j ∧ IndexedAt "additional_" j K := by
  induction xs with
  | nil => intro i K hK; simp [additionalWrites] at hK
  | cons x rest ih =>
    intro i K hK
    simp only [additionalWrites, List.map_append, List.mem_append] at hK
    rcases hK with h | h
    · exact ⟨i, le_refl _, additionalElementWrites_shape i x K h⟩
    · obtain ⟨j, hj, hK⟩ := ih (i + 1) K h
      exact ⟨j, by omega, hK⟩

theorem additionalWrites_keys_nodup (xs : QJsonArray) (hwf : ∀ x ∈ xs, WF x.toObject) :
    ∀ (i : Nat), ((additionalWrites i xs).map Prod.fst).Nodup := by
  induction xs with
  | nil => intro i; simp [additionalWrites]
  | cons x rest ih =>
    intro i
    simp only [additionalWrites, List.map_append]
    rw [List.nodup_append]
    refine ⟨additionalElementWrites_keys_nodup _ _ (hwf x (List.mem_cons_self _ _)),
      ih (fun y hy => hwf y (List.mem_cons_of_mem _ hy)) (i + 1), ?_⟩
    intro K h1 h2
    obtain ⟨j, hj, hK⟩ := additionalWrites_shape rest (i + 1) _ h2
    exact indexedAt_ne _ i j _ _ (additionalElementWrites_shape i x K h1) hK (by omega) rfl

theorem firstNotificationWrites_keys (notifs : QJsonArray) :
    (firstNotificationWrites notifs).map Prod.fst =
      ["notification_category", "notification_description", "notification_errorNumber",
       "notification_id", "notification_text"] := by
  unfold firstNotificationWrites
  split_ifs <;> rfl

end HomeAssistant

namespace HomeAssistant

open QJsonObject

/-! ### No two `put` calls of `makeHaFlat` write the same key -/

theorem nodup_segments (c : String → Nat) :
    ∀ (segs : List (Nat × List String)), (segs.map Prod.fst).Nodup →
      (∀ s ∈ segs, s.2.Nodup ∧ ∀ k ∈ s.2, c k = s.1) →
      (segs.flatMap Prod.snd).Nodup := by
  intro segs
  induction segs with
  | nil => intro _ _; simp
  | cons s rest ih =>
    intro hc hs
    simp only [List.map_cons, List.nodup_cons] at hc
    rw [List.flatMap_cons, List.nodup_append]
    refine ⟨(hs s (List.mem_cons_self _ _)).1,
      ih hc.2 (fun t ht => hs t (List.mem_cons_of_mem _ ht)), ?_⟩
    intro K h1 h2
    obtain ⟨t, ht, hKt⟩ := List.mem_flatMap.1 h2
    have e1 := (hs s (List.mem_cons_self _ _)).2 K h1
    have e2 := (hs t (List.mem_cons_of_mem _ ht)).2 K hKt
    exact hc.1 (List.mem_map.2 ⟨t, ht, e2.symm.trans e1⟩)

/-- The keys of the `put` calls, grouped by the rule that writes them. -/
theorem writes_keys (status : QJsonObject) :
    (writes status).map Prod.fst =
      List.flatMap
        [(0, ["device_id"]), (1, ["id"]), (2, ["is_online"]), (3, ["is_in_use"]),
         (4, ["has_info"]),
         (15, (memberWrites "hygiene_" (status.value "hygieneState").toObject).map Prod.fst),
         (5, ["notifications_count"]), (6, ["notification_category"]),
         (7, ["notification_description"]), (8, ["notification_errorNumber"]),
         (9, ["notification_id"]), (10, ["notification_text"]),
         (16, (objectListWrites "notifications" 0
            (status.value "notifications").toArray).map Prod.fst),
         (11, ["critical_errors_count"]),
         (17, (objectListWrites "critical" 0
            (status.value "criticalErrors").toArray).map Prod.fst),
         (12, ["other_notifications_count"]),
         (18, (objectListWrites "other_notifications" 0
            (status.value "otherNotifications").toArray).map Prod.fst),
         (13, ["additional_status_fields_count"]),
         (19, (additionalWrites 0
            (status.value "additionalStatusFields").toArray).map Prod.fst)]
        Prod.snd := by
  simp [writes, firstNotificationWrites_keys, List.flatMap_cons]

theorem writes_keys_nodup (status : QJsonObject) (hwf : ObjectsWF status) :
    ((writes status).map Prod.fst).Nodup := by
  obtain ⟨hhs, hn, hc, ho, ha⟩ := hwf
  rw [writes_keys]
  apply nodup_segments keyClass
  · simp only [List.map_cons, List.map_nil]
    decide
  · intro s hs
    simp only [List.mem_cons, List.mem_singleton, List.not_mem_nil, or_false] at hs
    rcases hs with rfl | rfl | rfl | rfl | rfl | rfl | rfl | rfl | rfl | rfl | rfl | rfl |
      rfl | rfl | rfl | rfl | rfl | rfl | rfl
    · exact ⟨List.nodup_singleton _, by decide⟩
    · exact ⟨List.nodup_singleton _, by decide⟩
    · exact ⟨List.nodup_singleton _, by decide⟩
    · exact ⟨List.nodup_singleton _, by decide⟩
    · exact ⟨List.nodup_singleton _, by decide⟩
    · refine ⟨memberWrites_keys_nodup _ _ hhs, ?_⟩
      intro K hK
      rw [memberWrites_keys] at hK
      obtain ⟨k, _, rfl⟩ := List.mem_map.1 hK
      exact keyClass_hygiene k
    · exact ⟨List.nodup_singleton _, by decide⟩
    · exact ⟨List.nodup_singleton _, by decide⟩
    · exact ⟨List.nodup_singleton _, by decide⟩
    · exact ⟨List.nodup_singleton _, by decide⟩
    · exact ⟨List.nodup_singleton _, by decide⟩
    · exact ⟨List.nodup_singleton _, by decide⟩
    · refine ⟨objectListWrites_keys_nodup _ _ hn 0, ?_⟩
      intro K hK
      obtain ⟨j, _, hj⟩ := objectListWrites_shape _ _ 0 K hK
      exact keyClass_notifications j K hj
    · exact ⟨List.nodup_singleton _, by decide⟩
    · refine ⟨objectListWrites_keys_nodup _ _ hc 0, ?_⟩
      intro K hK
      obtain ⟨j, _, hj⟩ := objectListWrites_shape _ _ 0 K hK
      exact keyClass_critical j K hj
    · exact ⟨List.nodup_singleton _, by decide⟩
    · refine ⟨objectListWrites_keys_nodup _ _ ho 0, ?_⟩
      intro K hK
      obtain ⟨j, _, hj⟩ := objectListWrites_shape _ _ 0 K hK
      exact keyClass_other j K hj
    · exact ⟨List.nodup_singleton _, by decide⟩
    · refine ⟨additionalWrites_keys_nodup _ ha 0, ?_⟩
      intro K hK
      obtain ⟨j, _, hj⟩ := additionalWrites_shape _ 0 K hK
      exact keyClass_additional j K hj

/-- With well-formed objects, every `put` call of `makeHaFlat` is visible in the result:
under its key stands what `put` stores for its value. -/
theorem value_makeHaFlat_of_write (status : QJsonObject) (hwf : ObjectsWF status)
    (K : String) (v : QJsonValue) (hmem : (K, v) ∈ writes status) :
    value (makeHaFlat status) K = stored v := by
  rw [makeHaFlat_eq_writes]
  exact value_foldl_put_of_mem _ K v (writes_keys_nodup status hwf) hmem _

end HomeAssistant

namespace HomeAssistant

open QJsonObject

/-! ### Where each rule's `put` calls sit in the sequence -/

theorem indexedKey_append (ns : String) (i : Nat) (k : String) :
    ns ++ "_" ++ Nat.repr i ++ "_" ++ k = indexedKey ns i ++ k := rfl

theorem mem_memberWrites (pre : String) (o : QJsonObject) (k : String) (v : QJsonValue)
    (h : (k, v) ∈ o) : (pre ++ k, v) ∈ memberWrites pre o :=
  List.mem_map.2 ⟨(k, v), h, rfl⟩

theorem mem_objectListWrites (ns : String) (xs : QJsonArray) :
    ∀ (s i : Nat) (x : QJsonValue) (k : String) (v : QJsonValue),
      xs[i]? = some x → (k, v) ∈ x.toObject →
      (indexedKey ns (s + i) ++ k, v) ∈ objectListWrites ns s xs := by
  induction xs with
  | nil => intro s i x k v hx _; simp at hx
  | cons y rest ih =>
    intro s i x k v hx hk
    simp only [objectListWrites, List.mem_append]
    cases i with
    | zero =>
      simp only [List.getElem?_cons_zero, Option.some.injEq] at hx
      subst hx
      exact Or.inl (mem_memberWrites _ _ _ _ hk)
    | succ j =>
      simp only [List.getElem?_cons_succ] at hx
      have := ih (s + 1) j x k v hx hk
      rw [show s + 1 + j = s + (j + 1) by omega] at this
      exact Or.inr this

theorem mem_additionalWrites (xs : QJsonArray) :
    ∀ (s i : Nat) (x : QJsonValue) (p : String × QJsonValue),
      xs[i]? = some x → p ∈ additionalElementWrites (s + i) x →
      p ∈ additionalWrites s xs := by
  induction xs with
  | nil => intro s i x p hx _; simp at hx
  | cons y rest ih =>
    intro s i x p hx hp
    simp only [additionalWrites, List.mem_append]
    cases i with
    | zero =>
      simp only [List.getElem?_cons_zero, Option.some.injEq] at hx
      subst hx
      exact Or.inl hp
    | succ j =>
      simp only [List.getElem?_cons_succ] at hx
      rw [show s + (j + 1) = s + 1 + j by omega] at hp
      exact Or.inr (ih (s + 1) j x p hx hp)

theorem mem_writes_hygiene (status : QJsonObject) (k : String) (v : QJsonValue)
    (h : (k, v) ∈ (status.value "hygieneState").toObject) :
    ("hygiene_" ++ k, v) ∈ writes status := by
  have := mem_memberWrites "hygiene_" _ k v h
  simp [writes, this]

theorem mem_writes_notifications (status : QJsonObject) (i : Nat) (x : QJsonValue)
    (k : String) (v : QJsonValue) (hx : (status.value "notifications").toArray[i]? = some x)
    (h : (k, v) ∈ x.toObject) :
    ("notifications_" ++ Nat.repr i ++ "_" ++ k, v) ∈ writes status := by
  have := mem_objectListWrites "notifications" _ 0 i x k v hx h
  rw [Nat.zero_add] at this
  have e : "notifications_" ++ Nat.repr i ++ "_" ++ k = indexedKey "notifications" i ++ k :=
    indexedKey_append "notifications" i k
  rw [e]
  simp [writes, this]

theorem mem_writes_critical (status : QJsonObject) (i : Nat) (x : QJsonValue)
    (k : String) (v : QJsonValue) (hx : (status.value "criticalErrors").toArray[i]? = some x)
    (h : (k, v) ∈ x.toObject) :
    ("critical_" ++ Nat.repr i ++ "_" ++ k, v) ∈ writes status := by
  have := mem_objectListWrites "critical" _ 0 i x k v hx h
  rw [Nat.zero_add] at this
  have e : "critical_" ++ Nat.repr i ++ "_" ++ k = indexedKey "critical" i ++ k :=
    indexedKey_append "critical" i k
  rw [e]
  simp [writes, this]

theorem mem_writes_other (status : QJsonObject) (i : Nat) (x : QJsonValue)
    (k : String) (v : QJsonValue)
    (hx : (status.value "otherNotifications").toArray[i]? = some x)
    (h : (k, v) ∈ x.toObject) :
    ("other_notifications_" ++ Nat.repr i ++ "_" ++ k, v) ∈ writes status := by
  have := mem_objectListWrites "other_notifications" _ 0 i x k v hx h
  rw [Nat.zero_add] at this
  have e : "other_notifications_" ++ Nat.repr i ++ "_" ++ k =
      indexedKey "other_notifications" i ++ k :=
    indexedKey_append "other_notifications" i k
  rw [e]
  simp [writes, this]

theorem mem_writes_additional (status : QJsonObject) (i : Nat) (x : QJsonValue)
    (p : String × QJsonValue)
    (hx : (status.value "additionalStatusFields").toArray[i]? = some x)
    (h : p ∈ additionalElementWrites i x) : p ∈ writes status := by
  have := mem_additionalWrites _ 0 i x p hx (by rwa [Nat.zero_add])
  simp [writes, this]

theorem mem_writes_first (status : QJsonObject) (p : String × QJsonValue)
    (h : p ∈ firstNotificationWrites (status.value "notifications").toArray) :
    p ∈ writes status := by
  simp [writes, h]

theorem contains_foldl_put (ws : List (String × QJsonValue)) (K : String) :
    ∀ flat : QJsonObject, (contains flat K = true ∨ K ∈ ws.map Prod.fst) →
      contains (List.foldl (fun acc kv => put acc kv.1 kv.2) flat ws) K = true := by
  induction ws with
  | nil => intro flat h; simpa using h
  | cons p rest ih =>
    intro flat h
    simp only [List.foldl_cons]
    apply ih
    rcases h with h | h
    · left
      rw [put_eq]
      exact contains_insertSorted_of_contains _ _ _ _ h
    · rcases List.mem_cons.1 h with e | e
      · left
        have e' : K = p.1 := e
        rw [put_eq, e']
        exact contains_insertSorted_self _ _ _
      · exact Or.inr e

end HomeAssistant

namespace HomeAssistant

open QJsonObject

/-! ### The anti-null convention -/

/-- C10, as stated, fails: a null `isOnline` is copied to `is_online` as the boolean
`false`, not as the empty string. -/
theorem null_isOnline_is_not_empty_string :
    value [("isOnline", .null)] "isOnline" = .null ∧
    value (makeHaFlat [("isOnline", .null)]) "is_online" = .bool false ∧
    value (makeHaFlat [("isOnline", .null)]) "is_online" ≠ .string "" := by
  decide

/-- C10, amended. For every status document: no field of the result of `makeHaFlat` is
null (or undefined), the fourteen fixed keys are present, and the result is not the
empty object. When the objects the flattener iterates over are well formed, every null
that a rule hands to `put` as it is shows up as the empty string under its output key:
`hasInfo`; a member of `hygieneState`; a member of an object element of
`notifications`, `criticalErrors`, `otherNotifications` or `additionalStatusFields`; a
null element of `additionalStatusFields`; the `category`, `description`, `errorNumber`,
`id` or `text` of a first notification that is an object. The values that go through a
conversion first are not part of that rule: a null `isOnline` or `isInUse` gives the
boolean `false`, a null `id` the empty string, a null `deviceId` the text of `id`. -/
theorem anti_null_convention (status : QJsonObject) :
    (∀ p ∈ makeHaFlat status, p.2 ≠ .null ∧ p.2 ≠ .undefined) ∧
    (∀ k ∈ fixedKeys, contains (makeHaFlat status) k = true) ∧
    makeHaFlat status ≠ [] ∧
    (ObjectsWF status →
      (status.value "hasInfo" = .null →
        value (makeHaFlat status) "has_info" = .string "") ∧
      (∀ k, (k, .null) ∈ (status.value "hygieneState").toObject →
        value (makeHaFlat status) ("hygiene_" ++ k) = .string "") ∧
      (∀ i o k, (status.value "notifications").toArray[i]? = some (.object o) →
        (k, .null) ∈ o →
        value (makeHaFlat status) ("notifications_" ++ Nat.repr i ++ "_" ++ k) =
          .string "") ∧
      (∀ i o k, (status.value "criticalErrors").toArray[i]? = some (.object o) →
        (k, .null) ∈ o →
        value (makeHaFlat status) ("critical_" ++ Nat.repr i ++ "_" ++ k) = .string "") ∧
      (∀ i o k, (status.value "otherNotifications").toArray[i]? = some (.object o) →
        (k, .null) ∈ o →
        value (makeHaFlat status) ("other_notifications_" ++ Nat.repr i ++ "_" ++ k) =
          .string "") ∧
      (∀ i o k, (status.value "additionalStatusFields").toArray[i]? = some (.object o) →
        (k, .null) ∈ o →
        value (makeHaFlat status) ("additional_" ++ Nat.repr i ++ "_" ++ k) = .string "") ∧
      (∀ i, (status.value "additionalStatusFields").toArray[i]? = some .null →
        value (makeHaFlat status) ("additional_" ++ Nat.repr i) = .string "") ∧
      (∀ o rest, (status.value "notifications").toArray = .object o :: rest →
        (value o "category" = .null →
          value (makeHaFlat status) "notification_category" = .string "") ∧
        (value o "description" = .null →
          value (makeHaFlat status) "notification_description" = .string "") ∧
        (value o "errorNumber" = .null →
          value (makeHaFlat status) "notification_errorNumber" = .string "") ∧
        (value o "id" = .null →
          value (makeHaFlat status) "notification_id" = .string "") ∧
        (value o "text" = .null →
          value (makeHaFlat status) "notification_text" = .string "")) ∧
      (status.value "isOnline" = .null →
        value (makeHaFlat status) "is_online" = .bool false) ∧
      (status.value "isInUse" = .null →
        value (makeHaFlat status) "is_in_use" = .bool false) ∧
      (status.value "id" = .null → value (makeHaFlat status) "id" = .string "") ∧
      (status.value "deviceId" = .null →
        value (makeHaFlat status) "device_id" =
          .string ((status.value "id").toString ""))) := by
  refine ⟨?_, ?_, makeHaFlat_ne_nil status, ?_⟩
  · -- no null, no undefined
    apply makeHaFlat_preserves (fun o => ∀ p ∈ o, p.2 ≠ .null ∧ p.2 ≠ .undefined)
    · intro flat k v hflat p hp
      rw [put_eq] at hp
      rcases mem_insertSorted _ _ _ _ hp with e | e
      · subst e
        exact ⟨stored_ne_null v, stored_ne_undef v⟩
      · exact hflat p e
    · intro v p hp
      rw [put_eq] at hp
      rcases mem_insertSorted _ _ _ _ hp with e | e
      · subst e
        exact ⟨stored_ne_null v, stored_ne_undef v⟩
      · simp at e
  · -- the fixed keys
    intro k hk
    rw [makeHaFlat_eq_writes]
    apply contains_foldl_put
    right
    rw [writes_keys]
    simp only [fixedKeys, List.mem_cons, List.mem_singleton, List.not_mem_nil, or_false] at hk
    rcases hk with rfl | rfl | rfl | rfl | rfl | rfl | rfl | rfl | rfl | rfl | rfl | rfl |
      rfl | rfl <;> simp [List.flatMap_cons]
  · -- nulls handed to put
    intro hwf
    have key := value_makeHaFlat_of_write status hwf
    have hnull : stored .null = .string "" := rfl
    refine ⟨?_, ?_, ?_, ?_, ?_, ?_, ?_, ?_, ?_, ?_, ?_, ?_⟩
    · intro h
      have := key "has_info" (status.value "hasInfo") (by simp [writes])
      rw [this, h, hnull]
    · intro k hk
      rw [key _ _ (mem_writes_hygiene status k .null hk), hnull]
    · intro i o k hx hk
      rw [key _ _ (mem_writes_notifications status i _ k .null hx hk), hnull]
    · intro i o k hx hk
      rw [key _ _ (mem_writes_critical status i _ k .null hx hk), hnull]
    · intro i o k hx hk
      rw [key _ _ (mem_writes_other status i _ k .null hx hk), hnull]
    · intro i o k hx hk
      have hm : ("additional_" ++ Nat.repr i ++ "_" ++ k, QJsonValue.null) ∈
          additionalElementWrites i (.object o) := by
        simp only [additionalElementWrites, QJsonValue.isObject, if_true]
        exact mem_memberWrites _ _ _ _ hk
      rw [key _ _ (mem_writes_additional status i _ _ hx hm), hnull]
    · intro i hx
      have hm : ("additional_" ++ Nat.repr i, QJsonValue.null) ∈
          additionalElementWrites i .null := by
        simp [additionalElementWrites, QJsonValue.isObject, QJsonValue.isArray]
      rw [key _ _ (mem_writes_additional status i _ _ hx hm), hnull]
    · intro o rest hn
      have hf : firstNotificationWrites (status.value "notifications").toArray =
          [("notification_category", value o "category"),
           ("notification_description", value o "description"),
           ("notification_errorNumber", value o "errorNumber"),
           ("notification_id", value o "id"),
           ("notification_text", value o "text")] := by
        rw [hn]
        simp [firstNotificationWrites, QJsonValue.isObject, QJsonValue.toObject]
      refine ⟨?_, ?_, ?_, ?_, ?_⟩ <;> intro h
      · rw [key "notification_category" (value o "category")
          (mem_writes_first status _ (by rw [hf]; simp)), h, hnull]
      · rw [key "notification_description" (value o "description")
          (mem_writes_first status _ (by rw [hf]; simp)), h, hnull]
      · rw [key "notification_errorNumber" (value o "errorNumber")
          (mem_writes_first status _ (by rw [hf]; simp)), h, hnull]
      · rw [key "notification_id" (value o "id")
          (mem_writes_first status _ (by rw [hf]; simp)), h, hnull]
      · rw [key "notification_text" (value o "text")
          (mem_writes_first status _ (by rw [hf]; simp)), h, hnull]
    · intro h
      have := key "is_online" (.bool (status.value "isOnline").toBool) (by simp [writes])
      rw [this, h]
      rfl
    · intro h
      have := key "is_in_use" (.bool (status.value "isInUse").toBool) (by simp [writes])
      rw [this, h]
      rfl
    · intro h
      have := key "id" (.string ((status.value "id").toString "")) (by simp [writes])
      rw [this, h]
      rfl
    · intro h
      have := key "device_id"
        (.string ((status.value "deviceId").toString ((status.value "id").toString "")))
        (by simp [writes])
      rw [this, h]
      rfl

/-- Instance of C10 (amended): a status with a null member of `hygieneState`, a null
member of the first notification and a null additional element. -/
theorem anti_null_convention_witness :
    ObjectsWF [("additionalStatusFields", .array [.null]),
               ("hygieneState", .object [("x", .null)]),
               ("notifications", .array [.object [("text", .null)]])] ∧
    value (makeHaFlat [("additionalStatusFields", .array [.null]),
                       ("hygieneState", .object [("x", .null)]),
                       ("notifications", .array [.object [("text", .null)]])])
      ("hygiene_" ++ "x") = .string "" :=
  ⟨by decide,
   ((anti_null_convention [("additionalStatusFields", .array [.null]),
      ("hygieneState", .object [("x", .null)]),
      ("notifications", .array [.object [("text", .null)]])]).2.2.2 (by decide)).2.1
      "x" (by decide)⟩

end HomeAssistant

namespace HomeAssistant

open QJsonObject

/-! ### Presence of keys and number of fields after a sequence of `put` calls -/

theorem contains_insertSorted_eq (o : QJsonObject) (k k' : String) (v : QJsonValue) :
    contains (insertSorted o k v) k' = (decide (k' = k) || contains o k') := by
  induction o with
  | nil =>
    by_cases h : k = k' <;> simp [insertSorted, contains, h, eq_comm]
  | cons p rest ih =>
    obtain ⟨k0, w⟩ := p
    simp only [insertSorted]
    split_ifs with h1 h2
    · by_cases h : k = k' <;> simp [contains, h, eq_comm]
    · subst h2
      by_cases h : k = k' <;> simp [contains, h, eq_comm]
    · simp only [contains, ih]
      by_cases h0 : k0 = k' <;> simp [h0]

theorem length_insertSorted (o : QJsonObject) (k : String) (v : QJsonValue)
    (h : contains o k = false) : (insertSorted o k v).length = o.length + 1 := by
  induction o with
  | nil => rfl
  | cons p rest ih =>
    obtain ⟨k0, w⟩ := p
    simp only [contains] at h
    split_ifs at h with h0
    have h0' : ¬ k = k0 := fun e => h0 e.symm
    simp only [insertSorted]
    by_cases h1 : keyLt k k0 = true
    · simp [h1]
    · simp [h1, h0', ih h]

theorem mem_keys_iff_contains (o : QJsonObject) (K : String) :
    K ∈ keys o ↔ contains o K = true := by
  induction o with
  | nil => simp [keys, contains]
  | cons p rest ih =>
    obtain ⟨k0, w⟩ := p
    have ih' : K ∈ List.map Prod.fst rest ↔ contains rest K = true := ih
    simp only [keys, List.map_cons, List.mem_cons, contains, ih']
    by_cases h0 : k0 = K
    · subst h0
      simp
    · have h0' : ¬ K = k0 := fun e => h0 e.symm
      simp [h0, h0']

theorem contains_put (flat : QJsonObject) (k K : String) (v : QJsonValue) :
    contains (put flat k v) K = (decide (K = k) || contains flat K) := by
  rw [put_eq, contains_insertSorted_eq]

theorem contains_foldl_put_iff (ws : List (String × QJsonValue)) (K : String) :
    ∀ flat : QJsonObject,
      contains (List.foldl (fun acc kv => put acc kv.1 kv.2) flat ws) K = true ↔
        (contains flat K = true ∨ K ∈ ws.map Prod.fst) := by
  induction ws with
  | nil => intro flat; simp
  | cons p rest ih =>
    intro flat
    simp only [List.foldl_cons, ih, contains_put, List.map_cons, List.mem_cons,
      Bool.or_eq_true, decide_eq_true_eq]
    tauto

theorem length_foldl_put (ws : List (String × QJsonValue)) :
    ∀ flat : QJsonObject, (ws.map Prod.fst).Nodup →
      (∀ K ∈ ws.map Prod.fst, contains flat K = false) →
      (List.foldl (fun acc kv => put acc kv.1 kv.2) flat ws).length =
        flat.length + ws.length := by
  induction ws with
  | nil => intro flat _ _; rfl
  | cons p rest ih =>
    intro flat hnd hfresh
    simp only [List.map_cons, List.nodup_cons] at hnd
    simp only [List.foldl_cons]
    rw [ih _ hnd.2, put_eq, length_insertSorted _ _ _ (hfresh p.1 (by simp))]
    · simp only [List.length_cons]
      omega
    · intro K hK
      rw [contains_put]
      have h1 : K ≠ p.1 := fun e => hnd.1 (e ▸ hK)
      simp [h1, hfresh K (by simp [hK])]

theorem mem_keys_makeHaFlat (status : QJsonObject) (K : String) :
    K ∈ keys (makeHaFlat status) ↔ K ∈ (writes status).map Prod.fst := by
  rw [mem_keys_iff_contains, makeHaFlat_eq_writes, contains_foldl_put_iff]
  simp [contains]

/-! ### How many `put` calls there are -/

theorem memberWrites_length (pre : String) (o : QJsonObject) :
    (memberWrites pre o).length = o.length := by
  simp [memberWrites]

theorem objectListWrites_length (ns : String) (xs : QJsonArray) :
    ∀ i : Nat, (objectListWrites ns i xs).length =
      (xs.map fun x => x.toObject.length).sum := by
  induction xs with
  | nil => intro i; rfl
  | cons x rest ih =>
    intro i
    simp [objectListWrites, memberWrites_length, ih]

theorem additionalWrites_length (xs : QJsonArray) :
    ∀ i : Nat, (additionalWrites i xs).length =
      (xs.map fun x => if x.isObject then x.toObject.length else 1).sum := by
  induction xs with
  | nil => intro i; rfl
  | cons x rest ih =>
    intro i
    simp only [additionalWrites, List.length_append, ih, List.map_cons, List.sum_cons]
    congr 1
    unfold additionalElementWrites
    split_ifs <;> simp [memberWrites_length]

theorem firstNotificationWrites_length (notifs : QJsonArray) :
    (firstNotificationWrites notifs).length = 5 := by
  unfold firstNotificationWrites
  split_ifs <;> rfl

theorem writes_length (status : QJsonObject) :
    (writes status).length =
      14 + (status.value "hygieneState").toObject.length +
      ((status.value "notifications").toArray.map fun x => x.toObject.length).sum +
      ((status.value "criticalErrors").toArray.map fun x => x.toObject.length).sum +
      ((status.value "otherNotifications").toArray.map fun x => x.toObject.length).sum +
      ((status.value "additionalStatusFields").toArray.map fun x =>
        if x.isObject then x.toObject.length else 1).sum := by
  simp only [writes, List.length_append, List.length_cons, List.length_nil,
    memberWrites_length, objectListWrites_length, additionalWrites_length,
    firstNotificationWrites_length]
  omega

/-! ### The fixed keys are written by no loop -/

theorem value_put (flat : QJsonObject) (k K : String) (v : QJsonValue) :
    value (put flat k v) K = if K = k then stored v else value flat K := by
  split_ifs with h
  · subst h; exact value_put_self _ _ _
  · exact value_put_ne _ _ _ _ h

theorem value_foldl_put_filter (q : String → Bool) (K : String) (hK : q K = true)
    (ws : List (String × QJsonValue)) :
    ∀ flat flat' : QJsonObject, value flat K = value flat' K →
      value (List.foldl (fun acc kv => put acc kv.1 kv.2) flat ws) K =
        value (List.foldl (fun acc kv => put acc kv.1 kv.2) flat'
          (ws.filter fun p => q p.1)) K := by
  induction ws with
  | nil => intro flat flat' h; exact h
  | cons p rest ih =>
    intro flat flat' h
    simp only [List.foldl_cons, List.filter_cons]
    by_cases hq : q p.1 = true
    · simp only [hq, if_true, List.foldl_cons]
      apply ih
      rw [value_put, value_put, h]
    · simp only [hq, Bool.false_eq_true, if_false]
      apply ih
      have hne : K ≠ p.1 := fun e => hq (e ▸ hK)
      rw [value_put_ne _ _ _ _ hne, h]

theorem filter_writes (status : QJsonObject) :
    ((writes status).filter fun p => decide (keyClass p.1 < 15)) = fixedWrites status := by
  have hm : ∀ o : QJsonObject,
      ((memberWrites "hygiene_" o).filter fun p => decide (keyClass p.1 < 15)) = [] := by
    intro o
    rw [List.filter_eq_nil_iff]
    intro p hp
    obtain ⟨q, _, rfl⟩ := List.mem_map.1 hp
    simp [keyClass_hygiene]
  have hl : ∀ (ns : String) (c : Nat) (xs : QJsonArray), 15 ≤ c →
      (∀ j K, IndexedAt (ns ++ "_") j K → keyClass K = c) →
      ((objectListWrites ns 0 xs).filter fun p => decide (keyClass p.1 < 15)) = [] := by
    intro ns c xs hc hcls
    rw [List.filter_eq_nil_iff]
    intro p hp
    obtain ⟨j, _, hj⟩ := objectListWrites_shape ns xs 0 p.1 (List.mem_map_of_mem _ hp)
    rw [hcls j _ hj]
    simp only [decide_eq_true_eq]
    omega
  have ha : ∀ xs : QJsonArray,
      ((additionalWrites 0 xs).filter fun p => decide (keyClass p.1 < 15)) = [] := by
    intro xs
    rw [List.filter_eq_nil_iff]
    intro p hp
    obtain ⟨j, _, hj⟩ := additionalWrites_shape xs 0 p.1 (List.mem_map_of_mem _ hp)
    rw [keyClass_additional j _ hj]
    decide
  have hf : ∀ n : QJsonArray,
      ((firstNotificationWrites n).filter fun p => decide (keyClass p.1 < 15)) =
        firstNotificationWrites n := by
    intro n
    rw [List.filter_eq_self]
    intro p hp
    have hk : p.1 ∈ (firstNotificationWrites n).map Prod.fst := List.mem_map_of_mem _ hp
    rw [firstNotificationWrites_keys] at hk
    simp only [List.mem_cons, List.mem_singleton, List.not_mem_nil, or_false] at hk
    rcases hk with e | e | e | e | e <;> rw [e] <;> decide
  have h1 := hl "notifications" 16 (status.value "notifications").toArray (by decide)
    (fun j K h => keyClass_notifications j K h)
  have h2 := hl "critical" 17 (status.value "criticalErrors").toArray (by decide)
    (fun j K h => keyClass_critical j K h)
  have h3 := hl "other_notifications" 18 (status.value "otherNotifications").toArray
    (by decide) (fun j K h => keyClass_other j K h)
  have c1 : decide (keyClass "device_id" < 15) = true := by decide
  have c2 : decide (keyClass "id" < 15) = true := by decide
  have c3 : decide (keyClass "is_online" < 15) = true := by decide
  have c4 : decide (keyClass "is_in_use" < 15) = true := by decide
  have c5 : decide (keyClass "has_info" < 15) = true := by decide
  have c6 : decide (keyClass "notifications_count" < 15) = true := by decide
  have c7 : decide (keyClass "critical_errors_count" < 15) = true := by decide
  have c8 : decide (keyClass "other_notifications_count" < 15) = true := by decide
  have c9 : decide (keyClass "additional_status_fields_count" < 15) = true := by decide
  simp only [writes, fixedWrites, List.filter_append, hm, h1, h2, h3, ha, hf,
    List.append_nil, List.nil_append, List.filter_cons, List.filter_nil, c1, c2, c3, c4,
    c5, c6, c7, c8, c9, if_true]
  simp

/-- Under a key that no loop writes, the result of `makeHaFlat` holds what the `put`
calls outside the loops leave there. -/
theorem value_makeHaFlat_fixed (status : QJsonObject) (K : String)
    (hK : keyClass K < 15) :
    value (makeHaFlat status) K =
      value (List.foldl (fun acc kv => put acc kv.1 kv.2) [] (fixedWrites status)) K := by
  rw [makeHaFlat_eq_writes, ← filter_writes]
  exact value_foldl_put_filter (fun k => decide (keyClass k < 15)) K (by simpa using hK)
    _ _ _ rfl

theorem value_after_first (flat : QJsonObject) (notifs : QJsonArray) (K : String)
    (hK : K ∉ ["notification_category", "notification_description",
      "notification_errorNumber", "notification_id", "notification_text"]) :
    value (List.foldl (fun acc kv => put acc kv.1 kv.2) flat
      (firstNotificationWrites notifs)) K = value flat K :=
  value_foldl_put_of_not_mem _ K (by rw [firstNotificationWrites_keys]; exact hK) _

theorem stored_double (n : Int) : stored (.double n) = .double n := rfl

theorem stored_string (s : String) : stored (.string s) = .string s := rfl

theorem stored_bool (b : Bool) : stored (.bool b) = .bool b := rfl

theorem stored_of_ne (v : QJsonValue) (h1 : v ≠ .null) (h2 : v ≠ .undefined) :
    stored v = v := by
  cases v <;> simp_all [stored, QJsonValue.isUndefined, QJsonValue.isNull]

end HomeAssistant

namespace HomeAssistant

open QJsonObject

/-! ### Every key of the result comes from the rule of its shape -/

theorem writes_keys_segments (status : QJsonObject) :
    (writes status).map Prod.fst = (segments status).flatMap Prod.snd :=
  writes_keys status

theorem segments_class (status : QJsonObject) :
    ∀ s ∈ segments status, ∀ k ∈ s.2, keyClass k = s.1 := by
  intro s hs
  simp only [segments, List.mem_cons, List.mem_singleton, List.not_mem_nil, or_false] at hs
  rcases hs with rfl | rfl | rfl | rfl | rfl | rfl | rfl | rfl | rfl | rfl | rfl | rfl |
    rfl | rfl | rfl | rfl | rfl | rfl | rfl
  · decide
  · decide
  · decide
  · decide
  · decide
  · intro K hK
    rw [memberWrites_keys] at hK
    obtain ⟨k, _, rfl⟩ := List.mem_map.1 hK
    exact keyClass_hygiene k
  · decide
  · decide
  · decide
  · decide
  · decide
  · decide
  · intro K hK
    obtain ⟨j, _, hj⟩ := objectListWrites_shape _ _ 0 K hK
    exact keyClass_notifications j K hj
  · decide
  · intro K hK
    obtain ⟨j, _, hj⟩ := objectListWrites_shape _ _ 0 K hK
    exact keyClass_critical j K hj
  · decide
  · intro K hK
    obtain ⟨j, _, hj⟩ := objectListWrites_shape _ _ 0 K hK
    exact keyClass_other j K hj
  · decide
  · intro K hK
    obtain ⟨j, _, hj⟩ := additionalWrites_shape _ 0 K hK
    exact keyClass_additional j K hj

/-- A key of the result sits in the group of its rule. -/
theorem mem_segment_of_mem_keys (status : QJsonObject) (K : String)
    (hK : K ∈ keys (makeHaFlat status)) :
    ∃ s ∈ segments status, s.1 = keyClass K ∧ K ∈ s.2 := by
  rw [mem_keys_makeHaFlat, writes_keys_segments] at hK
  obtain ⟨s, hs, hKs⟩ := List.mem_flatMap.1 hK
  exact ⟨s, hs, (segments_class status s hs K hKs).symm, hKs⟩

theorem hygiene_keys_of_result (status : QJsonObject) (K : String)
    (hK : K ∈ keys (makeHaFlat status)) (hc : keyClass K = 15) :
    ∃ k ∈ keys (status.value "hygieneState").toObject, K = "hygiene_" ++ k := by
  obtain ⟨s, hs, h1, h2⟩ := mem_segment_of_mem_keys status K hK
  rw [hc] at h1
  simp only [segments, List.mem_cons, List.mem_singleton, List.not_mem_nil, or_false] at hs
  rcases hs with rfl | rfl | rfl | rfl | rfl | rfl | rfl | rfl | rfl | rfl | rfl | rfl |
    rfl | rfl | rfl | rfl | rfl | rfl | rfl <;> simp at h1
  rw [memberWrites_keys] at h2
  obtain ⟨k, hk, rfl⟩ := List.mem_map.1 h2
  exact ⟨k, hk, rfl⟩

theorem additional_keys_of_result (status : QJsonObject) (K : String)
    (hK : K ∈ keys (makeHaFlat status)) (hc : keyClass K = 19) :
    K ∈ (additionalWrites 0 (status.value "additionalStatusFields").toArray).map
      Prod.fst := by
  obtain ⟨s, hs, h1, h2⟩ := mem_segment_of_mem_keys status K hK
  rw [hc] at h1
  simp only [segments, List.mem_cons, List.mem_singleton, List.not_mem_nil, or_false] at hs
  rcases hs with rfl | rfl | rfl | rfl | rfl | rfl | rfl | rfl | rfl | rfl | rfl | rfl |
    rfl | rfl | rfl | rfl | rfl | rfl | rfl <;> simp at h1
  exact h2

theorem mem_additionalWrites_inv (xs : QJsonArray) :
    ∀ (s : Nat) (p : String × QJsonValue), p ∈ additionalWrites s xs →
      ∃ j x, xs[j]? = some x ∧ p ∈ additionalElementWrites (s + j) x := by
  induction xs with
  | nil => intro s p hp; simp [additionalWrites] at hp
  | cons y rest ih =>
    intro s p hp
    simp only [additionalWrites, List.mem_append] at hp
    rcases hp with h | h
    · exact ⟨0, y, by simp, by simpa using h⟩
    · obtain ⟨j, x, hx, hpx⟩ := ih (s + 1) p h
      refine ⟨j + 1, x, by simpa using hx, ?_⟩
      rw [show s + (j + 1) = s + 1 + j by omega]
      exact hpx

theorem keyClass_eq_hygiene_iff (K : String) :
    keyClass K = 15 ↔ startsWith "hygiene_" K = true := by
  constructor
  · intro h
    by_contra hn
    have hf : startsWith "hygiene_" K = false := by simpa using hn
    unfold keyClass at h
    rw [hf] at h
    simp only [Bool.false_eq_true, if_false] at h
    have hlt : fixedKeys.indexOf K ≤ 14 := by
      have := @List.indexOf_le_length _ _ K fixedKeys
      simpa [fixedKeys] using this
    split_ifs at h <;> omega
  · intro h
    simp [keyClass, h]

end HomeAssistant

namespace HomeAssistant

open QJsonObject

/-! ### The rules of the flattener, one by one -/

/-- C11 (list-of-object rule). For every status document and each of the lists
`notifications`, `criticalErrors`, `otherNotifications`: the count key
(`notifications_count`, `critical_errors_count`, `other_notifications_count`) holds the
length of the list; and, the objects being well formed, for every position `i` that holds
an object and every member `(k, v)` of it, the field `<namespace>_<i>_<k>` (namespaces
`notifications`, `critical`, `other_notifications`) holds what `put` stores for `v`: `v`
itself, the empty string when `v` is null. -/
theorem list_of_object_rule (status : QJsonObject) :
    (value (makeHaFlat status) "notifications_count" =
        .double (status.value "notifications").toArray.length ∧
      value (makeHaFlat status) "critical_errors_count" =
        .double (status.value "criticalErrors").toArray.length ∧
      value (makeHaFlat status) "other_notifications_count" =
        .double (status.value "otherNotifications").toArray.length) ∧
    (ObjectsWF status →
      (∀ i o k v, (status.value "notifications").toArray[i]? = some (.object o) →
        (k, v) ∈ o →
        value (makeHaFlat status) ("notifications_" ++ Nat.repr i ++ "_" ++ k) = stored v) ∧
      (∀ i o k v, (status.value "criticalErrors").toArray[i]? = some (.object o) →
        (k, v) ∈ o →
        value (makeHaFlat status) ("critical_" ++ Nat.repr i ++ "_" ++ k) = stored v) ∧
      (∀ i o k v, (status.value "otherNotifications").toArray[i]? = some (.object o) →
        (k, v) ∈ o →
        value (makeHaFlat status) ("other_notifications_" ++ Nat.repr i ++ "_" ++ k) =
          stored v)) ∧
    (stored .null = .string "" ∧ ∀ v, v ≠ .null → v ≠ .undefined → stored v = v) := by
  refine ⟨⟨?_, ?_, ?_⟩, ?_, rfl, stored_of_ne⟩
  · rw [value_makeHaFlat_fixed _ _ (by decide)]
    simp [fixedWrites, List.foldl_append, value_put, value_after_first, stored_double]
  · rw [value_makeHaFlat_fixed _ _ (by decide)]
    simp [fixedWrites, List.foldl_append, value_put, value_after_first, stored_double]
  · rw [value_makeHaFlat_fixed _ _ (by decide)]
    simp [fixedWrites, List.foldl_append, value_put, value_after_first, stored_double]
  · intro hwf
    have key := value_makeHaFlat_of_write status hwf
    refine ⟨?_, ?_, ?_⟩
    · intro i o k v hx hk
      exact key _ _ (mem_writes_notifications status i _ k v hx hk)
    · intro i o k v hx hk
      exact key _ _ (mem_writes_critical status i _ k v hx hk)
    · intro i o k v hx hk
      exact key _ _ (mem_writes_other status i _ k v hx hk)

/-- Instance of C11: two notifications, the second with a null member. -/
theorem list_of_object_rule_witness :
    ObjectsWF [("notifications",
      .array [.object [("id", .double 7)], .object [("text", .null)]])] ∧
    value (makeHaFlat [("notifications",
      .array [.object [("id", .double 7)], .object [("text", .null)]])])
      ("notifications_" ++ Nat.repr 1 ++ "_" ++ "text") = stored .null :=
  ⟨by decide,
   ((list_of_object_rule [("notifications",
      .array [.object [("id", .double 7)], .object [("text", .null)]])]).2.1
      (by decide)).1 1 [("text", .null)] "text" .null (by decide) (by decide)⟩

/-- C12 (first notification). For every status document whose `notifications` list
starts with an object `n0`, the five keys `notification_category`,
`notification_description`, `notification_errorNumber`, `notification_id` and
`notification_text` hold what `put` stores for `n0`'s `category`, `description`,
`errorNumber`, `id` and `text`: the value itself, the empty string where `n0` lacks the
key or holds null. For every status document whose `notifications` list is empty (the
key absent, or not a list, included), the five keys are present and hold the empty
string. -/
theorem first_notification_rule (status : QJsonObject) :
    (∀ n0 rest, (status.value "notifications").toArray = .object n0 :: rest →
      value (makeHaFlat status) "notification_category" = stored (value n0 "category") ∧
      value (makeHaFlat status) "notification_description" =
        stored (value n0 "description") ∧
      value (makeHaFlat status) "notification_errorNumber" =
        stored (value n0 "errorNumber") ∧
      value (makeHaFlat status) "notification_id" = stored (value n0 "id") ∧
      value (makeHaFlat status) "notification_text" = stored (value n0 "text")) ∧
    ((status.value "notifications").toArray = [] →
      ∀ K ∈ ["notification_category", "notification_description",
          "notification_errorNumber", "notification_id", "notification_text"],
        contains (makeHaFlat status) K = true ∧
        value (makeHaFlat status) K = .string "") ∧
    (stored .undefined = .string "" ∧ stored .null = .string "" ∧
      ∀ v, v ≠ .null → v ≠ .undefined → stored v = v) := by
  refine ⟨?_, ?_, rfl, rfl, stored_of_ne⟩
  · intro n0 rest h
    refine ⟨?_, ?_, ?_, ?_, ?_⟩ <;>
    · rw [value_makeHaFlat_fixed _ _ (by decide)]
      simp [fixedWrites, List.foldl_append, value_put, h, firstNotificationWrites,
        QJsonValue.isObject, QJsonValue.toObject]
  · intro h K hK
    have hc : contains (makeHaFlat status) K = true := by
      rw [← mem_keys_iff_contains, mem_keys_makeHaFlat, writes_keys]
      simp only [List.mem_cons, List.mem_singleton, List.not_mem_nil, or_false] at hK
      rcases hK with rfl | rfl | rfl | rfl | rfl <;> simp [List.flatMap_cons]
    refine ⟨hc, ?_⟩
    simp only [List.mem_cons, List.mem_singleton, List.not_mem_nil, or_false] at hK
    rcases hK with rfl | rfl | rfl | rfl | rfl <;>
    · rw [value_makeHaFlat_fixed _ _ (by decide)]
      simp [fixedWrites, List.foldl_append, value_put, h, firstNotificationWrites,
        stored_string]

/-- Instance of C12: a first notification with a text, and no notifications at all. -/
theorem first_notification_rule_witness :
    value (makeHaFlat [("notifications", .array [.object [("text", .string "hot")]])])
      "notification_text" = stored (value [("text", .string "hot")] "text") ∧
    value (makeHaFlat []) "notification_id" = .string "" :=
  ⟨((first_notification_rule
      [("notifications", .array [.object [("text", .string "hot")]])]).1
      [("text", .string "hot")] [] (by decide)).2.2.2.2,
   ((first_notification_rule []).2.1 (by decide) "notification_id" (by decide)).2⟩

/-- C13 (additional status). For every status document, `additional_status_fields_count`
holds the length of `additionalStatusFields`; and, the objects being well formed, for
every position `i` of that list: an object element gives, for each member `(k, v)`, the
field `additional_<i>_<k>` holding what `put` stores for `v`; a list element gives the
field `additional_<i>` holding, as a string, the compact JSON text of that list; any
other element gives the field `additional_<i>` holding what `put` stores for it (the
element itself, the empty string when it is null). -/
theorem additional_status_rule (status : QJsonObject) :
    value (makeHaFlat status) "additional_status_fields_count" =
      .double (status.value "additionalStatusFields").toArray.length ∧
    (ObjectsWF status →
      (∀ i o k v, (status.value "additionalStatusFields").toArray[i]? = some (.object o) →
        (k, v) ∈ o →
        value (makeHaFlat status) ("additional_" ++ Nat.repr i ++ "_" ++ k) = stored v) ∧
      (∀ i xs, (status.value "additionalStatusFields").toArray[i]? = some (.array xs) →
        value (makeHaFlat status) ("additional_" ++ Nat.repr i) =
          .string (QJsonDocument.arrayToJson xs)) ∧
      (∀ i x, (status.value "additionalStatusFields").toArray[i]? = some x →
        x.isObject = false → x.isArray = false →
        value (makeHaFlat status) ("additional_" ++ Nat.repr i) = stored x)) ∧
    (∀ i x, (status.value "additionalStatusFields").toArray[i]? = some x →
      x.isObject = false → ∀ K ∈ keys (makeHaFlat status),
        IndexedAt "additional_" i K → K = "additional_" ++ Nat.repr i) ∧
    (stored .null = .string "" ∧ ∀ v, v ≠ .null → v ≠ .undefined → stored v = v) := by
  refine ⟨?_, ?_, ?_, rfl, stored_of_ne⟩
  rotate_left
  · intro hwf
    have key := value_makeHaFlat_of_write status hwf
    refine ⟨?_, ?_, ?_⟩
    · intro i o k v hx hk
      have hm : ("additional_" ++ Nat.repr i ++ "_" ++ k, v) ∈
          additionalElementWrites i (.object o) := by
        simp only [additionalElementWrites, QJsonValue.isObject, if_true]
        exact mem_memberWrites _ _ _ _ hk
      exact key _ _ (mem_writes_additional status i _ _ hx hm)
    · intro i xs hx
      have hm : ("additional_" ++ Nat.repr i,
          QJsonValue.string (QJsonDocument.arrayToJson xs)) ∈
          additionalElementWrites i (.array xs) := by
        simp [additionalElementWrites, QJsonValue.isObject, QJsonValue.isArray,
          QJsonValue.toArray]
      rw [key _ _ (mem_writes_additional status i _ _ hx hm), stored_string]
    · intro i x hx ho ha
      have hm : ("additional_" ++ Nat.repr i, x) ∈ additionalElementWrites i x := by
        simp [additionalElementWrites, ho, ha]
      exact key _ _ (mem_writes_additional status i _ _ hx hm)
  · intro i x hx ho K hK hshape
    have hmem := additional_keys_of_result status K hK (keyClass_additional i K hshape)
    obtain ⟨p, hp, rfl⟩ := List.mem_map.1 hmem
    obtain ⟨j, y, hy, hpy⟩ := mem_additionalWrites_inv _ 0 p hp
    rw [Nat.zero_add] at hpy
    have hj : IndexedAt "additional_" j p.1 :=
      additionalElementWrites_shape j y p.1 (List.mem_map_of_mem _ hpy)
    have hij : i = j :=
      (keyIndex_of_indexedAt _ i p.1 hshape).symm.trans (keyIndex_of_indexedAt _ j p.1 hj)
    subst hij
    rw [hx] at hy
    simp only [Option.some.injEq] at hy
    subst hy
    unfold additionalElementWrites at hpy
    rw [ho] at hpy
    simp only [Bool.false_eq_true, if_false] at hpy
    split_ifs at hpy <;>
    · simp only [List.mem_singleton] at hpy
      rw [hpy]
  · rw [value_makeHaFlat_fixed _ _ (by decide)]
    simp [fixedWrites, List.foldl_append, value_put, value_after_first, stored_double]

/-- Instance of C13: a number, a list and an object. -/
theorem additional_status_rule_witness :
    ObjectsWF [("additionalStatusFields",
      .array [.double 5, .array [.double 1, .null], .object [("k", .bool true)]])] ∧
    value (makeHaFlat [("additionalStatusFields",
      .array [.double 5, .array [.double 1, .null], .object [("k", .bool true)]])])
      ("additional_" ++ Nat.repr 1) =
      .string (QJsonDocument.arrayToJson [.double 1, .null]) :=
  ⟨by decide,
   ((additional_status_rule [("additionalStatusFields",
      .array [.double 5, .array [.double 1, .null], .object [("k", .bool true)]])]).2.1
      (by decide)).2.1 1 [.double 1, .null] (by decide)⟩

end HomeAssistant

namespace HomeAssistant

open QJsonObject

/-- C14 (no key collisions). For every status document whose objects are well formed,
whatever strings their keys are: `makeHaFlat` is the sequence of `put` calls listed by
`writes` (fixed keys, `hygiene_<k>`, `notifications_<i>_<k>`, `critical_<i>_<k>`,
`other_notifications_<i>_<k>`, `additional_<i>_<k>`, `additional_<i>`), the keys of
these calls are pairwise distinct, so every call is still visible in the result under
its key, and the number of fields of the result is 14 plus the number of members of
`hygieneState` plus the number of members of the object elements of the four lists plus
the number of elements of `additionalStatusFields` that are not objects. -/
theorem no_key_collisions (status : QJsonObject) (hwf : ObjectsWF status) :
    makeHaFlat status =
      List.foldl (fun acc kv => put acc kv.1 kv.2) [] (writes status) ∧
    ((writes status).map Prod.fst).Nodup ∧
    (∀ p ∈ writes status, value (makeHaFlat status) p.1 = stored p.2) ∧
    (makeHaFlat status).length =
      14 + (status.value "hygieneState").toObject.length +
      ((status.value "notifications").toArray.map fun x => x.toObject.length).sum +
      ((status.value "criticalErrors").toArray.map fun x => x.toObject.length).sum +
      ((status.value "otherNotifications").toArray.map fun x => x.toObject.length).sum +
      ((status.value "additionalStatusFields").toArray.map fun x =>
        if x.isObject then x.toObject.length else 1).sum := by
  refine ⟨makeHaFlat_eq_writes status, writes_keys_nodup status hwf, ?_, ?_⟩
  · intro p hp
    exact value_makeHaFlat_of_write status hwf p.1 p.2 hp
  · have hlen := length_foldl_put (writes status) [] (writes_keys_nodup status hwf)
      (fun K _ => rfl)
    rw [makeHaFlat_eq_writes, hlen, writes_length]
    simp

/-- Instance of C14: one member of `hygieneState`, one notification with two members,
three additional elements of which one is an object with one member: 14 + 1 + 2 + 3
fields. -/
theorem no_key_collisions_witness :
    (makeHaFlat [("additionalStatusFields",
        .array [.double 5, .array [], .object [("k", .bool true)]]),
      ("hygieneState", .object [("x", .null)]),
      ("notifications", .array [.object [("id", .double 7), ("text", .null)]])]).length
      = 14 + 1 + 2 + 0 + 0 + 3 :=
  (no_key_collisions [("additionalStatusFields",
        .array [.double 5, .array [], .object [("k", .bool true)]]),
      ("hygieneState", .object [("x", .null)]),
      ("notifications", .array [.object [("id", .double 7), ("text", .null)]])]
    (by decide)).2.2.2

/-- C16 (top-level scalars). For every status document in which `id` is a string,
`isOnline` and `isInUse` are booleans and `hasInfo` is present and not null: the result
of `makeHaFlat` has `id` = `id`, `is_online` = `isOnline`, `is_in_use` = `isInUse`,
`has_info` = `hasInfo`, `device_id` = `deviceId` when `deviceId` is a string, and
`device_id` = `id` when `deviceId` is missing. -/
theorem top_level_scalar_rule (status : QJsonObject) (sid : String) (online inUse : Bool)
    (hid : value status "id" = .string sid)
    (honline : value status "isOnline" = .bool online)
    (hinUse : value status "isInUse" = .bool inUse)
    (hinfo : value status "hasInfo" ≠ .null)
    (hinfo' : value status "hasInfo" ≠ .undefined) :
    value (makeHaFlat status) "id" = .string sid ∧
    value (makeHaFlat status) "is_online" = .bool online ∧
    value (makeHaFlat status) "is_in_use" = .bool inUse ∧
    value (makeHaFlat status) "has_info" = value status "hasInfo" ∧
    (∀ d, value status "deviceId" = .string d →
      value (makeHaFlat status) "device_id" = .string d) ∧
    (value status "deviceId" = .undefined →
      value (makeHaFlat status) "device_id" = .string sid) := by
  refine ⟨?_, ?_, ?_, ?_, ?_, ?_⟩
  · rw [value_makeHaFlat_fixed _ _ (by decide)]
    simp [fixedWrites, List.foldl_append, value_put, value_after_first, stored_string,
      hid, QJsonValue.toString]
  · rw [value_makeHaFlat_fixed _ _ (by decide)]
    simp [fixedWrites, List.foldl_append, value_put, value_after_first, stored_bool,
      honline, QJsonValue.toBool]
  · rw [value_makeHaFlat_fixed _ _ (by decide)]
    simp [fixedWrites, List.foldl_append, value_put, value_after_first, stored_bool,
      hinUse, QJsonValue.toBool]
  · rw [value_makeHaFlat_fixed _ _ (by decide)]
    simp [fixedWrites, List.foldl_append, value_put, value_after_first,
      stored_of_ne _ hinfo hinfo']
  · intro d hd
    rw [value_makeHaFlat_fixed _ _ (by decide)]
    simp [fixedWrites, List.foldl_append, value_put, value_after_first, stored_string,
      hd, QJsonValue.toString]
  · intro hd
    rw [value_makeHaFlat_fixed _ _ (by decide)]
    simp [fixedWrites, List.foldl_append, value_put, value_after_first, stored_string,
      hd, hid, QJsonValue.toString]

/-- Instance of C16: a status without `deviceId`. -/
theorem top_level_scalar_rule_witness :
    value (makeHaFlat [("hasInfo", .bool true), ("id", .string "tap-1"),
      ("isInUse", .bool false), ("isOnline", .bool true)]) "device_id" =
      .string "tap-1" :=
  (top_level_scalar_rule [("hasInfo", .bool true), ("id", .string "tap-1"),
      ("isInUse", .bool false), ("isOnline", .bool true)] "tap-1" true false
    (by decide) (by decide) (by decide) (by decide) (by decide)).2.2.2.2.2 (by decide)

/-- C17 (state sub-object). For every status document: when `hygieneState` is a well
formed object, each member `(k, v)` of it gives the field `hygiene_<k>` holding what `put`
stores for `v`, that is `v` as it is, whole also when it is an object or a list, and the
empty string when it is null; every field of the result whose key starts with `hygiene_`
is `hygiene_<k>` for a key `k` of `hygieneState` itself, so nothing below the first level
gets a field; and when `hygieneState` is absent or not an object, no key of the result
starts with `hygiene_`. -/
theorem state_subobject_rule (status : QJsonObject) :
    (ObjectsWF status → ∀ k v, (k, v) ∈ (value status "hygieneState").toObject →
      value (makeHaFlat status) ("hygiene_" ++ k) = stored v) ∧
    (∀ K ∈ keys (makeHaFlat status), startsWith "hygiene_" K = true →
      ∃ k ∈ keys (value status "hygieneState").toObject, K = "hygiene_" ++ k) ∧
    ((value status "hygieneState").isObject = false →
      ∀ K ∈ keys (makeHaFlat status), startsWith "hygiene_" K = false) ∧
    ((∀ o, stored (.object o) = .object o) ∧ (∀ xs, stored (.array xs) = .array xs) ∧
      stored .null = .string "" ∧ ∀ v, v ≠ .null → v ≠ .undefined → stored v = v) := by
  refine ⟨?_, ?_, ?_, fun _ => rfl, fun _ => rfl, rfl, stored_of_ne⟩
  · intro hwf k v hk
    exact value_makeHaFlat_of_write status hwf _ _ (mem_writes_hygiene status k v hk)
  · intro K hK hs
    exact hygiene_keys_of_result status K hK ((keyClass_eq_hygiene_iff K).2 hs)
  · intro hno K hK
    by_contra hs
    have hs' : startsWith "hygiene_" K = true := by simpa using hs
    obtain ⟨k, hk, _⟩ :=
      hygiene_keys_of_result status K hK ((keyClass_eq_hygiene_iff K).2 hs')
    have hempty : (value status "hygieneState").toObject = [] := by
      cases hv : value status "hygieneState" <;> simp_all [QJsonValue.toObject,
        QJsonValue.isObject]
    rw [hempty] at hk
    simp [keys] at hk

/-- Instance of C17: a member that is itself an object is copied whole. -/
theorem state_subobject_rule_witness :
    ObjectsWF [("hygieneState", .object [("last", .object [("t", .double 3)])])] ∧
    value (makeHaFlat [("hygieneState", .object [("last", .object [("t", .double 3)])])])
      ("hygiene_" ++ "last") = stored (.object [("t", .double 3)]) :=
  ⟨by decide,
   (state_subobject_rule
      [("hygieneState", .object [("last", .object [("t", .double 3)])])]).1 (by decide)
      "last" (.object [("t", .double 3)]) (by decide)⟩

end HomeAssistant

namespace HomeAssistant

open QJsonObject

/-! ### Republish with nothing to republish -/

/-- C15. From a state with no current record in which the cached type is empty, or the
cached name is empty, or the cached port is 0 (a new object in particular),
`republish_mdns` is a no-op: the state is unchanged (no record, cache as before,
Unpublished), nothing is handed to the provider, and one warning is emitted. -/
theorem republish_without_cache_is_noop (g : HomeAssistant) (t : QThread)
    (hnone : g.mdns_service = none)
    (hbad : g.mdns_serviceType = "" ∨ g.mdns_instanceName = "" ∨ g.mdns_port = 0) :
    republish_mdns g =
      (g, [.log .warning "[MdnsService] republish() skipped; no cached parameters."]) ∧
    providerUpdates (republish_mdns g).2 = [] ∧
    published (republish_mdns g).1 = false ∧
    republish_mdns (new t) =
      (new t, [.log .warning "[MdnsService] republish() skipped; no cached parameters."]) := by
  have hguard : (g.mdns_serviceType.isEmpty || g.mdns_instanceName.isEmpty ||
      g.mdns_port == 0) = true := by
    have hempty : "".isEmpty = true := by decide
    rcases hbad with e | e | e
    · simp [e, hempty]
    · simp [e, hempty]
    · simp [e]
  have hmain : republish_mdns g =
      (g, [.log .warning "[MdnsService] republish() skipped; no cached parameters."]) := by
    unfold republish_mdns
    rw [hnone]
    cases hp : g.mdns_provider <;> simp [hguard]
  refine ⟨hmain, ?_, ?_, rfl⟩
  · rw [hmain]
    rfl
  · rw [hmain]
    simp [published, hnone]

/-- Instance of C15: an object on which `start_mdns` and then `stop_mdns` ran. -/
theorem republish_without_cache_is_noop_witness :
    providerUpdates (republish_mdns
      (stop_mdns (start_mdns (new 0) "_ha._tcp" "hub" 8090 []).1).1).2 = [] :=
  (republish_without_cache_is_noop
    (stop_mdns (start_mdns (new 0) "_ha._tcp" "hub" 8090 []).1).1 0 rfl (Or.inl rfl)).2.1

/-! ### What a call leaves in the gate -/

/-- C19 (gate state update). For every state, clock reading, document and flag, a call
`broadcastHaFlat(doc, force)` on the owning thread either goes through or is suppressed.
When it goes through, the flat document is sent to every registered socket and the state
afterwards is the state before with the snapshot replaced by `makeHaFlat(doc)` and the
timer started at the clock reading of the call. When it is suppressed, it has no effect
at all and the state is the one before (snapshot, timer and queue included), so every
later call behaves as if the suppressed call had not been made. A forced call always goes
through. -/
theorem gate_state_update (h : HomeAssistant) (now : Int) (doc : QJsonObject)
    (force : Bool) :
    (broadcasts (broadcastHaFlat h h.thread now doc force).2 = 1 ∨
      broadcasts (broadcastHaFlat h h.thread now doc force).2 = 0) ∧
    (broadcasts (broadcastHaFlat h h.thread now doc force).2 = 1 →
      (broadcastHaFlat h h.thread now doc force).1 =
        { h with m_lastSend := some now, m_lastFlat := makeHaFlat doc } ∧
      (broadcastHaFlat h h.thread now doc force).1.m_lastFlat = makeHaFlat doc ∧
      (broadcastHaFlat h h.thread now doc force).1.m_lastSend = some now ∧
      frames (broadcastHaFlat h h.thread now doc force).2 =
        h.w_clients.map (fun s => (s, QJsonDocument.toJson (makeHaFlat doc)))) ∧
    (broadcasts (broadcastHaFlat h h.thread now doc force).2 = 0 →
      broadcastHaFlat h h.thread now doc force = (h, []) ∧
      ∀ (now' : Int) (doc' : QJsonObject) (force' : Bool),
        broadcastHaFlat (broadcastHaFlat h h.thread now doc force).1 h.thread now' doc'
          force' = broadcastHaFlat h h.thread now' doc' force') ∧
    (force = true → broadcasts (broadcastHaFlat h h.thread now doc force).2 = 1) := by
  by_cases hs : (!force && gateCloses h now (makeHaFlat doc)) = true
  · have hr : broadcastHaFlat h h.thread now doc force = (h, []) := by
      rw [broadcastHaFlat_owner, if_pos hs]
    have hf : force = false := by
      cases force
      · rfl
      · simp at hs
    rw [hr]
    refine ⟨Or.inr rfl, ?_, ?_, ?_⟩
    · intro h1
      simp [broadcasts] at h1
    · intro _
      exact ⟨rfl, fun _ _ _ => rfl⟩
    · intro h1
      rw [hf] at h1
      exact absurd h1 (by decide)
  · have hr : broadcastHaFlat h h.thread now doc force =
        ({ h with m_lastSend := some now, m_lastFlat := makeHaFlat doc },
         sendEffects h (makeHaFlat doc)) := by
      rw [broadcastHaFlat_owner, if_neg hs]
    rw [hr]
    refine ⟨Or.inl (broadcasts_sendEffects _ _), ?_, ?_, ?_⟩
    · intro _
      exact ⟨rfl, rfl, rfl, frames_sendEffects _ _⟩
    · intro h0
      rw [broadcasts_sendEffects] at h0
      exact absurd h0 (by decide)
    · intro _
      exact broadcasts_sendEffects _ _

/-- Instance of C19: the second of two identical calls is suppressed and leaves the
state of the first. -/
theorem gate_state_update_witness :
    broadcastHaFlat (broadcastHaFlat (new 0) 0 0 [] false).1 0 500 [] false =
      ((broadcastHaFlat (new 0) 0 0 [] false).1, []) :=
  ((gate_state_update (broadcastHaFlat (new 0) 0 0 [] false).1 500 [] false).2.2.1
    (by decide)).1

/-! ### The flattener reads ten keys -/

/-- C20. Two status documents that hold the same value under each of the ten keys
`makeHaFlat` reads (`deviceId`, `id`, `isOnline`, `isInUse`, `hasInfo`, `hygieneState`,
`notifications`, `criticalErrors`, `otherNotifications`, `additionalStatusFields`)
flatten to the same result, whatever else they hold. So in a state whose snapshot is the
flat document of one of them, a non-forced `broadcastHaFlat` of the other on the owning
thread is suppressed at every clock reading; in particular right after a call that sent
the first. -/
theorem flatten_reads_recognised_keys_only (d1 d2 : QJsonObject)
    (hagree : ∀ k ∈ recognisedKeys, value d1 k = value d2 k) :
    makeHaFlat d1 = makeHaFlat d2 ∧
    (∀ (h : HomeAssistant) (now : Int), h.m_lastFlat = makeHaFlat d1 →
      broadcastHaFlat h h.thread now d2 false = (h, [])) ∧
    (∀ (h : HomeAssistant) (t1 t2 : Int) (force : Bool),
      broadcasts (broadcastHaFlat h h.thread t1 d1 force).2 = 1 →
      broadcastHaFlat (broadcastHaFlat h h.thread t1 d1 force).1 h.thread t2 d2 false =
        ((broadcastHaFlat h h.thread t1 d1 force).1, [])) := by
  have h1 := hagree "deviceId" (by decide)
  have h2 := hagree "id" (by decide)
  have h3 := hagree "isOnline" (by decide)
  have h4 := hagree "isInUse" (by decide)
  have h5 := hagree "hasInfo" (by decide)
  have h6 := hagree "hygieneState" (by decide)
  have h7 := hagree "notifications" (by decide)
  have h8 := hagree "criticalErrors" (by decide)
  have h9 := hagree "otherNotifications" (by decide)
  have h10 := hagree "additionalStatusFields" (by decide)
  have hflat : makeHaFlat d1 = makeHaFlat d2 := by
    simp only [makeHaFlat, h1, h2, h3, h4, h5, h6, h7, h8, h9, h10]
  have hsupp : ∀ (h : HomeAssistant) (now : Int), h.m_lastFlat = makeHaFlat d1 →
      broadcastHaFlat h h.thread now d2 false = (h, []) := by
    intro h now hlast
    have hne := makeHaFlat_ne_nil d1
    rw [broadcastHaFlat_owner, ← hflat]
    have hg : gateCloses h now (makeHaFlat d1) = true := by
      unfold gateCloses
      rw [hlast]
      cases hm : makeHaFlat d1 with
      | nil => exact absurd hm hne
      | cons p rest => simp [QJsonObject.isEmpty]
    simp [hg]
  refine ⟨hflat, hsupp, ?_⟩
  intro h t1 t2 force hsent
  have hthread : (broadcastHaFlat h h.thread t1 d1 force).1.thread = h.thread := by
    rw [broadcastHaFlat_owner]
    split_ifs <;> rfl
  have hlast : (broadcastHaFlat h h.thread t1 d1 force).1.m_lastFlat = makeHaFlat d1 := by
    rw [broadcastHaFlat_owner] at hsent ⊢
    split_ifs at hsent ⊢ with hc
    · simp [broadcasts] at hsent
    · rfl
  have := hsupp (broadcastHaFlat h h.thread t1 d1 force).1 t2 hlast
  rw [hthread] at this
  exact this

/-- Instance of C20: the second document has a key the flattener does not read. -/
theorem flatten_reads_recognised_keys_only_witness :
    makeHaFlat [("id", .string "x")] =
      makeHaFlat [("firmware", .string "1.2"), ("id", .string "x")] :=
  (flatten_reads_recognised_keys_only [("id", .string "x")]
    [("firmware", .string "1.2"), ("id", .string "x")] (by decide)).1

end HomeAssistant
